import Mathlib

/-!
Verification of the PLAID plate-layout solver (`app/solver/constraint_solver.py`),
its companion validator, the picklist generator (`app/services/layout_service.py`)
and the Echo picklist CSV serializer (`app/models/picklist.py`).

The CP-SAT engine is external; its outcome is modelled as an oracle parameter:
for each plate index the oracle answers with the (optional) assignment found for
the full model and for the relaxed model.  An engine answer is an assignment of
a (row, col) pair to each sample-instance index; the engine's documented
guarantees (values lie in the declared variable domains, `AllDifferent` holds)
appear as explicit hypotheses where a theorem needs them.  Wall-clock time and
logging are not modelled; `solve_time_ms` is 0.  Python floats are modelled
exactly: the golden-ratio literal `1.618033988749895` is the exact decimal
rational, and the floor computations are carried out in scaled integer
arithmetic (IEEE-double evaluation and exact rational evaluation of these
expressions agree on the whole operative index range).
-/

set_option maxRecDepth 1000000

namespace Plaid

/-- `ContentType` enum from `app/models/plate_layout.py`. -/
inductive ContentType where
  | empty
  | sample
  | positive_control
  | negative_control
  | blank
deriving DecidableEq, Repr

/-- String value of a `ContentType` member (`str`-valued enum). -/
def ContentType.value : ContentType → String
  | .empty => "empty"
  | .sample => "sample"
  | .positive_control => "positive_control"
  | .negative_control => "negative_control"
  | .blank => "blank"

/-- `ControlType` enum from `app/models/design_parameters.py`. -/
inductive ControlType where
  | positive
  | negative
  | blank
deriving DecidableEq, Repr

/-- `Control` model from `app/models/design_parameters.py`. -/
structure Control where
  ctype : ControlType
  name : String
  count : Nat
  source_well : Option String := none
deriving DecidableEq, Repr

/-- `PlateType` enum (values 96 / 384 / 1536). -/
inductive PlateType where
  | p96
  | p384
  | p1536
deriving DecidableEq, Repr

/-- Integer value of a `PlateType` member. -/
def PlateType.value : PlateType → Nat
  | .p96 => 96
  | .p384 => 384
  | .p1536 => 1536

/-- `Distribution` enum from `app/models/design_parameters.py`. -/
inductive Distribution where
  | random
  | column
  | row
  | uniform
deriving DecidableEq, Repr

/-- `GeneConfig` model: per-gene replicate count and transfer volume (nL). -/
structure GeneConfig where
  gene_symbol : String
  replicates : Nat
  transfer_volume : ℚ := 2.5
deriving DecidableEq, Repr

/-- `DesignParameters` model from `app/models/design_parameters.py`.
`gene_configs` is a Python dict keyed by gene symbol; it is modelled as an
association list with distinct keys looked up by `List.lookup`. -/
structure DesignParameters where
  plate_type : PlateType := .p96
  replicates : Nat := 6
  edge_empty_layers : Nat := 1
  distribution : Distribution := .uniform
  controls : List Control := []
  transfer_volume : ℚ := 2.5
  gene_configs : List (String × GeneConfig) := []
deriving DecidableEq, Repr

/-- `DesignParameters.get_replicates_for_gene`. -/
def DesignParameters.get_replicates_for_gene (p : DesignParameters) (gene : String) : Nat :=
  match p.gene_configs.lookup gene with
  | some cfg => cfg.replicates
  | none => p.replicates

/-- `DesignParameters.get_volume_for_gene`. -/
def DesignParameters.get_volume_for_gene (p : DesignParameters) (gene : String) : ℚ :=
  match p.gene_configs.lookup gene with
  | some cfg => cfg.transfer_volume
  | none => p.transfer_volume

/-- `DesignParameters.get_plate_dimensions` : plate type → (rows, cols). -/
def DesignParameters.get_plate_dimensions (p : DesignParameters) : Nat × Nat :=
  match p.plate_type with
  | .p96 => (8, 12)
  | .p384 => (16, 24)
  | .p1536 => (32, 48)

/-- `SourceWell` model from `app/models/source_plate.py` (volume / concentration in µL,
kept as exact rationals). -/
structure SourceWell where
  position : String
  gene_symbol : String
  volume : Option ℚ := none
  concentration : Option ℚ := none
deriving DecidableEq, Repr

/-- `SourcePlate` model from `app/models/source_plate.py`. -/
structure SourcePlate where
  barcode : String
  plate_type : String := "384PP_AQ_BP"
  wells : List SourceWell
deriving DecidableEq, Repr

/-- `SourcePlate.find_well` : first well whose `gene_symbol` matches. -/
def SourcePlate.find_well (sp : SourcePlate) (gene : String) : Option SourceWell :=
  sp.wells.find? fun w => w.gene_symbol == gene

/-- `LayoutWell` model from `app/models/plate_layout.py`. -/
structure LayoutWell where
  position : String
  row : Nat
  col : Nat
  content_type : ContentType
  gene_symbol : Option String := none
  replicate_index : Option Nat := none
  source_plate : Option String := none
  source_well : Option String := none
deriving DecidableEq, Repr

/-- `PlateLayout` model from `app/models/plate_layout.py`. -/
structure PlateLayout where
  plate_barcode : String
  plate_type : PlateType
  plate_index : Nat := 0
  wells : List LayoutWell
deriving DecidableEq, Repr

/-- `SolveStatus` enum; the source member `PARTIAL` is named `part` here. -/
inductive SolveStatus where
  | success
  | part
  | failed
deriving DecidableEq, Repr

/-- `ConstraintViolation` model from `app/models/plate_layout.py`. -/
structure ConstraintViolation where
  constraint_name : String
  description : String
  severity : String
  affected_wells : List String := []
deriving DecidableEq, Repr

/-- `SolveResult` model from `app/models/plate_layout.py`. -/
structure SolveResult where
  status : SolveStatus
  layouts : List PlateLayout := []
  violations : List ConstraintViolation := []
  relaxed_constraints : List String := []
  solve_time_ms : Nat := 0
  message : Option String := none
deriving DecidableEq, Repr

namespace ConstraintSolver

/-- `self.rows` computed in `ConstraintSolver.__init__`. -/
def rows (p : DesignParameters) : Nat := p.get_plate_dimensions.1

/-- `self.cols` computed in `ConstraintSolver.__init__`. -/
def cols (p : DesignParameters) : Nat := p.get_plate_dimensions.2

/-- `self.edge`. -/
def edge (p : DesignParameters) : Nat := p.edge_empty_layers

/-- `self.inner_rows = rows - 2 * edge`. -/
def inner_rows (p : DesignParameters) : Nat := rows p - 2 * edge p

/-- `self.inner_cols = cols - 2 * edge`. -/
def inner_cols (p : DesignParameters) : Nat := cols p - 2 * edge p

/-- `self.available_wells = inner_rows * inner_cols`. -/
def available_wells (p : DesignParameters) : Nat := inner_rows p * inner_cols p

/-- `_format_position`: row → letter (A = 0), col → 1-based two-digit number. -/
def _format_position (row col : Nat) : String :=
  String.mk [Char.ofNat (65 + row)] ++
    (if col + 1 < 10 then "0" else "") ++ toString (col + 1)

/-- The full row-major cell grid of the plate. -/
def all_cells (p : DesignParameters) : List (Nat × Nat) :=
  (List.range (rows p)).flatMap fun r =>
    (List.range (cols p)).map fun c => (r, c)

/-- The edge-ring test `r < edge or r >= rows - edge or c < edge or c >= cols - edge`
used whenever the source emits edge wells. -/
def on_edge (p : DesignParameters) (r c : Nat) : Bool :=
  r < edge p || rows p - edge p ≤ r || c < edge p || cols p - edge p ≤ c

/-- The inner coordinates `(r, c)` with `edge ≤ r < rows - edge`,
`edge ≤ c < cols - edge`, in the row-major order of the source's nested
`range(edge, rows - edge) × range(edge, cols - edge)` loops
(`inner_positions` in `_solve_single_plate_cpsat`, and the fill / forced
placement loops): exactly the grid cells that pass the inner test, in grid
order. -/
def inner_cells (p : DesignParameters) : List (Nat × Nat) :=
  (all_cells p).filter fun rc => !(on_edge p rc.1 rc.2)

/-- The empty wells of the edge ring, emitted first by every layout builder. -/
def edge_wells (p : DesignParameters) : List LayoutWell :=
  ((all_cells p).filter fun rc => on_edge p rc.1 rc.2).map fun rc =>
    { position := _format_position rc.1 rc.2, row := rc.1, col := rc.2,
      content_type := ContentType.empty }

/-- The sample-instance list `samples = [(g_idx, rep, gene) ...]` built by
`_solve_single_plate_cpsat` / `_solve_relaxed` / `_solve_heuristic_improved`
(one entry per requested replicate, in gene order then replicate order). -/
def instance_list (p : DesignParameters) (genes : List String) : List (Nat × Nat × String) :=
  genes.enum.flatMap fun gi =>
    (List.range (p.get_replicates_for_gene gi.2)).map fun rep => (gi.1, rep, gi.2)

/-- The heuristic's `placement` dict `(r, c) ↦ (gene, rep)`, modelled as an
association list in insertion order with distinct keys. -/
abbrev Placement := List ((Nat × Nat) × (String × Nat))

/-- Dict membership test `(r, c) in placement`. -/
def occupied (pl : Placement) (rc : Nat × Nat) : Bool :=
  pl.any fun e => e.1 == rc

/-- Membership test for a possibly negative coordinate pair: a dict keyed by
naturals never contains a pair with a negative component. -/
def occupiedI (pl : Placement) (rc : Int × Int) : Bool :=
  pl.any fun e => ((e.1.1 : Int), (e.1.2 : Int)) == rc

/-- The 8 neighbor offsets used by `_has_adjacent_same_gene` and
`_check_no_adjacent`, in source order. -/
def neighbor_offsets : List (Int × Int) :=
  [(-1, -1), (-1, 0), (-1, 1), (0, -1), (0, 1), (1, -1), (1, 0), (1, 1)]

/-- `_has_adjacent_same_gene`: some 8-neighbor of `(r, c)` is a placed well of
the same gene. -/
def _has_adjacent_same_gene (r c : Int) (gene : String) (pl : Placement) : Bool :=
  neighbor_offsets.any fun d =>
    pl.any fun e =>
      ((e.1.1 : Int) == r + d.1 && (e.1.2 : Int) == c + d.2) && e.2.1 == gene

/-- Numerator of the golden-ratio literal `1.618033988749895` (times `10^15`). -/
def PHI_NUM : Nat := 1618033988749895

/-- Scale of the golden-ratio literal: `10^15`. -/
def PHI_DEN : Nat := 1000000000000000

/-- `row_offset = int((g_idx * φ + rep * φ * φ) * inner_rows) % inner_rows`.
The product is nonnegative, so Python's `int` truncation is the floor, and the
floor of `((g·φ·d + rep·φ²)·R) / d²` is the integer division below.  The source
evaluates the expression in IEEE doubles; exact arithmetic on the decimal
literal agrees with the double evaluation throughout the operative index range
(checked exhaustively for `g_idx ≤ 1000`, `rep ≤ 100`, all plate geometries). -/
def row_offset (g_idx rep r_inner : Nat) : Nat :=
  (g_idx * PHI_NUM * PHI_DEN + rep * PHI_NUM * PHI_NUM) * r_inner / (PHI_DEN * PHI_DEN) % r_inner

/-- `col_offset = int((g_idx * φ * φ + rep * φ) * inner_cols) % inner_cols`. -/
def col_offset (g_idx rep c_inner : Nat) : Nat :=
  (g_idx * PHI_NUM * PHI_NUM + rep * PHI_NUM * PHI_DEN) * c_inner / (PHI_DEN * PHI_DEN) % c_inner

/-- Bounds check of the spiral search:
`edge ≤ r < rows - edge` and `edge ≤ c < cols - edge` (in `ℤ`, exactly as the
Python `int` comparisons). -/
def in_inner (p : DesignParameters) (r c : Int) : Bool :=
  (edge p : Int) ≤ r && r < (rows p : Int) - (edge p : Int) &&
    (edge p : Int) ≤ c && c < (cols p : Int) - (edge p : Int)

/-- Python's `range(lo, lo + n)` over the integers. -/
def int_range (lo : Int) (n : Nat) : List Int :=
  (List.range n).map fun (k : Nat) => lo + (k : Int)

/-- One shell of the spiral search: offsets `(dr, dc)` from
`range(-radius, radius + 1) × range(-radius, radius + 1)`, keeping only
`|dr| = radius ∨ |dc| = radius` (the source skips the cell when both are
`≠ radius`), in the source's scan order. -/
def shell_cells (radius : Nat) : List (Int × Int) :=
  (int_range (-(radius : Int)) (2 * radius + 1)).flatMap fun dr =>
    (int_range (-(radius : Int)) (2 * radius + 1)).filterMap fun dc =>
      if dr.natAbs = radius ∨ dc.natAbs = radius then some (dr, dc) else none

/-- All cells visited by the spiral search around `(tr, tc)`, in visit order:
shells of radius `0, 1, …, max inner_rows inner_cols - 1`. -/
def spiral_candidates (p : DesignParameters) (tr tc : Nat) : List (Int × Int) :=
  (List.range (max (inner_rows p) (inner_cols p))).flatMap fun radius =>
    (shell_cells radius).map fun d => ((tr : Int) + d.1, (tc : Int) + d.2)

/-- The acceptance test of the spiral search: in bounds, unoccupied, and no
8-neighbor with the same gene. -/
def spiral_ok (p : DesignParameters) (pl : Placement) (gene : String) (rc : Int × Int) : Bool :=
  in_inner p rc.1 rc.2 && !occupiedI pl rc && !_has_adjacent_same_gene rc.1 rc.2 gene pl

/-- The cell chosen for one instance by `_solve_heuristic_improved`: the first
spiral candidate passing `spiral_ok`, else (forced placement) the first free
inner cell in row-major order, else none (the instance is dropped). -/
def heur_chosen (p : DesignParameters) (pl : Placement) (g_idx rep : Nat)
    (gene : String) : Option (Nat × Nat) :=
  let tr := edge p + row_offset g_idx rep (inner_rows p)
  let tc := edge p + col_offset g_idx rep (inner_cols p)
  match (spiral_candidates p tr tc).find? (spiral_ok p pl gene) with
  | some rc => some (rc.1.toNat, rc.2.toNat)
  | none => (inner_cells p).find? fun rc => !occupied pl rc

/-- Placement of a single instance: extend the dict at the chosen cell. -/
def heur_place_instance (p : DesignParameters) (pl : Placement) (g_idx rep : Nat)
    (gene : String) : Placement :=
  match heur_chosen p pl g_idx rep gene with
  | some rc => pl ++ [(rc, (gene, rep))]
  | none => pl

/-- The full `placement` dict built by `_solve_heuristic_improved`'s main loop
(gene order, then replicate order). -/
def heur_placement (p : DesignParameters) (genes : List String) : Placement :=
  (instance_list p genes).foldl
    (fun pl inst => heur_place_instance p pl inst.1 inst.2.1 inst.2.2) []

/-- A sample well as built by every layout builder (position, coordinates,
gene, replicate index, and source-well attribution via `find_well`). -/
def sample_well (_p : DesignParameters) (sp : SourcePlate) (rc : Nat × Nat)
    (gene : String) (rep : Nat) : LayoutWell :=
  { position := _format_position rc.1 rc.2, row := rc.1, col := rc.2,
    content_type := ContentType.sample,
    gene_symbol := some gene, replicate_index := some rep,
    source_plate := some sp.barcode,
    source_well := (sp.find_well gene).map (·.position) }

/-- Inner cells not in `placement`, emitted as empty wells (the trailing
"fill remaining with empty" loop). -/
def fill_wells (p : DesignParameters) (placed : List (Nat × Nat)) : List LayoutWell :=
  ((inner_cells p).filter fun rc => !placed.contains rc).map fun rc =>
    { position := _format_position rc.1 rc.2, row := rc.1, col := rc.2,
      content_type := ContentType.empty }

/-- `_solve_heuristic_improved`: edge wells, then the placed sample wells in
placement order, then the empty fill of the remaining inner cells. -/
def _solve_heuristic_improved (p : DesignParameters) (genes : List String)
    (sp : SourcePlate) (plate_idx : Nat) : PlateLayout :=
  let pl := heur_placement p genes
  { plate_barcode := "plate_" ++ toString (plate_idx + 1),
    plate_type := p.plate_type,
    plate_index := plate_idx,
    wells := edge_wells p
      ++ (pl.map fun e => sample_well p sp e.1 e.2.1 e.2.2)
      ++ fill_wells p (pl.map (·.1)) }

/-- An engine answer for one plate: assignment of a cell to each sample-instance
index (the values of the `sample_row` / `sample_col` decision variables). -/
abbrev Assign := Nat → Nat × Nat

/-- The engine outcome for one plate: the assignment found for the full model
(if `OPTIMAL`/`FEASIBLE`) and the one found for the relaxed model. -/
abbrev OracleAnswer := Option Assign × Option Assign

/-- The engine, modelled as a map from plate index to its outcome. -/
abbrev Oracle := Nat → OracleAnswer

/-- `_extract_solution_from_vars`: edge wells, then one sample well per
instance at its assigned cell, then empty fill of the inner cells not assigned
to any instance. -/
def _extract_solution_from_vars (p : DesignParameters) (a : Assign)
    (samples : List (Nat × Nat × String)) (sp : SourcePlate) (plate_idx : Nat) :
    PlateLayout :=
  let placed := (List.range samples.length).map a
  { plate_barcode := "plate_" ++ toString (plate_idx + 1),
    plate_type := p.plate_type,
    plate_index := plate_idx,
    wells := edge_wells p
      ++ (samples.enum.map fun se => sample_well p sp (a se.1) se.2.2.2 se.2.2.1)
      ++ fill_wells p placed }

/-- `_solve_single_plate_cpsat` with the engine outcomes supplied by the
oracle: if the samples outnumber the inner positions, fall straight to the
heuristic; otherwise extract the full-model solution when the engine found
one, else (`_solve_relaxed`) the relaxed-model solution, else run the
heuristic. -/
def _solve_single_plate_cpsat (p : DesignParameters) (genes : List String)
    (sp : SourcePlate) (plate_idx : Nat) (ans : OracleAnswer) : PlateLayout :=
  let samples := instance_list p genes
  if (inner_cells p).length < samples.length then
    _solve_heuristic_improved p genes sp plate_idx
  else
    match ans.1 with
    | some a => _extract_solution_from_vars p a samples sp plate_idx
    | none =>
      match ans.2 with
      | some a => _extract_solution_from_vars p a samples sp plate_idx
      | none => _solve_heuristic_improved p genes sp plate_idx

/-- `genes_per_plate = ceil(len(genes) / num_plates)` (exact for the operative
magnitudes; the source computes it through float division). -/
def ceil_div (a b : Nat) : Nat := (a + b - 1) / b

/-- The gene chunk `genes[start:end]` solved on plate `i` of a multi-plate
batch. -/
def chunk (genes : List String) (num_plates i : Nat) : List String :=
  (genes.drop (i * ceil_div genes.length num_plates)).take
    (ceil_div genes.length num_plates)

/-- `_solve_with_cpsat`: one monolithic plate when `num_plates == 1`, else one
plate per non-empty contiguous gene chunk. -/
def _solve_with_cpsat (p : DesignParameters) (genes : List String)
    (sp : SourcePlate) (num_plates : Nat) (O : Oracle) : List PlateLayout :=
  if num_plates = 1 then
    [_solve_single_plate_cpsat p genes sp 0 (O 0)]
  else
    (List.range num_plates).flatMap fun i =>
      let plate_genes := chunk genes num_plates i
      if plate_genes.isEmpty then []
      else [_solve_single_plate_cpsat p plate_genes sp i (O i)]

/-- Lexicographic comparison of character lists by code point (`sorted` on two
Python strings). -/
def char_list_le : List Char → List Char → Bool
  | [], _ => true
  | _ :: _, [] => false
  | a :: as, b :: bs =>
    if a.toNat < b.toNat then true
    else if b.toNat < a.toNat then false
    else char_list_le as bs

/-- Python string comparison `a <= b` (lexicographic by code point). -/
def str_le (a b : String) : Bool := char_list_le a.data b.data

/-- `_check_no_adjacent` inner step: fold over the 8 neighbor offsets of one
sample well, extending the `checked` pair set and the violation list. -/
def check_adjacent_step (posmap : List LayoutWell) (well : LayoutWell)
    (st : List (String × String) × List ConstraintViolation) :
    List (String × String) × List ConstraintViolation :=
  neighbor_offsets.foldl
    (fun st d =>
      match posmap.find? (fun w =>
          (w.row : Int) == (well.row : Int) + d.1 &&
          (w.col : Int) == (well.col : Int) + d.2) with
      | none => st
      | some neighbor =>
        if neighbor.content_type = ContentType.sample &&
            neighbor.gene_symbol == well.gene_symbol then
          let pair := if str_le well.position neighbor.position
            then (well.position, neighbor.position)
            else (neighbor.position, well.position)
          if st.1.contains pair then st
          else
            (st.1 ++ [pair], st.2 ++ [{
              constraint_name := "no_adjacent_same_gene",
              description := "同一基因 " ++ (well.gene_symbol.getD "") ++
                " 相邻: " ++ pair.1 ++ ", " ++ pair.2,
              severity := "warning",
              affected_wells := [pair.1, pair.2] }])
        else st)
    st

/-- `_check_no_adjacent`: for every sample well, look at its 8 neighbors in the
position map; report each unordered adjacent same-gene pair once, with severity
`"warning"`.  The Python dict `pos_map` keeps the last well per coordinate, so
lookups search the reversed well list. -/
def _check_no_adjacent (layout : PlateLayout) : List ConstraintViolation :=
  let posmap := layout.wells.reverse
  (layout.wells.foldl
    (fun st well =>
      if well.content_type = ContentType.sample && well.gene_symbol.getD "" != "" then
        check_adjacent_step posmap well st
      else st)
    ([], [])).2

/-- `_check_quadrant_balance`: count sample wells per quadrant; warn when every
quadrant is populated and the spread exceeds 5. -/
def _check_quadrant_balance (p : DesignParameters) (layout : PlateLayout) :
    List ConstraintViolation :=
  let mid_r := rows p / 2
  let mid_c := cols p / 2
  let q := fun (i : Nat) => (layout.wells.filter fun w =>
    w.content_type = ContentType.sample &&
      ((if w.row < mid_r then 0 else 2) + (if w.col < mid_c then 0 else 1) == i)).length
  let counts := [q 0, q 1, q 2, q 3]
  if 0 < min (min (q 0) (q 1)) (min (q 2) (q 3)) &&
      max (max (q 0) (q 1)) (max (q 2) (q 3)) -
        min (min (q 0) (q 1)) (min (q 2) (q 3)) > 5 then
    [{ constraint_name := "quadrant_balance",
       description := "象限不平衡: " ++ toString counts,
       severity := "warning",
       affected_wells := [] }]
  else []

/-- `_validate_layouts`: adjacent-gene check then quadrant check, per layout. -/
def _validate_layouts (p : DesignParameters) (layouts : List PlateLayout) :
    List ConstraintViolation :=
  layouts.flatMap fun l => _check_no_adjacent l ++ _check_quadrant_balance p l

/-- `total_samples + total_controls` computed at the top of `solve`. -/
def total_needed (p : DesignParameters) (genes : List String) : Nat :=
  (genes.map p.get_replicates_for_gene).sum + (p.controls.map (·.count)).sum

/-- `num_plates = math.ceil(total_needed / available_wells)`. -/
def num_plates (p : DesignParameters) (genes : List String) : Nat :=
  ceil_div (total_needed p genes) (available_wells p)

/-- The body of `solve` after the capacity check: run `_solve_with_cpsat`,
validate, and classify the result (`partial` when an error-severity violation
exists, `failed` when no layout was produced). -/
def solve_after_capacity (p : DesignParameters) (genes : List String)
    (sp : SourcePlate) (O : Oracle) : SolveResult :=
  let layouts := _solve_with_cpsat p genes sp (num_plates p genes) O
  if layouts.isEmpty then
    { status := SolveStatus.failed, message := some "无法找到满足约束的布局" }
  else
    let violations := _validate_layouts p layouts
    if violations.any (·.severity == "error") then
      { status := SolveStatus.part, layouts := layouts, violations := violations,
        message := some "布局生成完成，但存在约束违反" }
    else
      { status := SolveStatus.success, layouts := layouts, violations := violations,
        message := some "布局生成成功" }

/-- `ConstraintSolver.solve` (engine outcomes supplied by the oracle; wall
clock not modelled, so `solve_time_ms = 0`). -/
def solve (p : DesignParameters) (genes : List String) (sp : SourcePlate)
    (O : Oracle) : SolveResult :=
  if 10 < num_plates p genes then
    { status := SolveStatus.failed,
      message := some ("需要 " ++ toString (num_plates p genes) ++
        " 个板，超过最大限制 (10)") }
  else
    solve_after_capacity p genes sp O

end ConstraintSolver

/-- `PicklistEntry` model from `app/models/picklist.py` (volume in nL, exact). -/
structure PicklistEntry where
  source_plate_barcode : String
  source_well : String
  source_plate_type : String
  destination_plate_barcode : String
  destination_plate_type : String
  destination_well : String
  transfer_volume : ℚ
  gene_symbol : String
  compound_label : Option String := none
  ensembl_id : Option String := none
deriving DecidableEq, Repr

/-- `EchoPicklist` model from `app/models/picklist.py`. -/
structure EchoPicklist where
  entries : List PicklistEntry
deriving DecidableEq, Repr

/-- Python truthiness of an optional string: `None` and `""` are falsy. -/
def truthy : Option String → Bool
  | none => false
  | some s => s ≠ ""

/-- `value or "N/A"` on an optional string field. -/
def orNA (s : Option String) : String :=
  match s with
  | some v => if v ≠ "" then v else "N/A"
  | none => "N/A"

/-- Decimal digits of the fractional part `f ∈ [0, 1)`, up to `fuel` digits
(stopping at zero remainder). -/
def fracDigits : ℚ → Nat → String
  | _, 0 => ""
  | f, fuel + 1 =>
    if f = 0 then ""
    else
      let d := ⌊f * 10⌋
      toString d ++ fracDigits (f * 10 - (d : ℚ)) fuel

/-- Models CPython `str()` on a float holding an exact short decimal value
(the only volumes that occur: API defaults such as `375.0`, `2.5`): integer
part, a dot, then the decimal fraction (`"0"` when the value is integral). -/
def pyFloatStr (q : ℚ) : String :=
  let sign := if q < 0 then "-" else ""
  let aq := |q|
  let ip := (⌊aq⌋).toNat
  let fp := aq - (ip : ℚ)
  sign ++ toString ip ++ "." ++ (if fp = 0 then "0" else fracDigits fp 17)

/-- `PLATE_TYPE_NAMES.get(value, "Corning_96_Uplate")`. -/
def plate_type_name (v : Nat) : String :=
  if v = 96 then "Corning_96_Uplate"
  else if v = 384 then "384PP_AQ_BP"
  else if v = 1536 then "1536LDV_AQ_B2"
  else "Corning_96_Uplate"

namespace LayoutService

/-- The source well chosen for a layout well by `generate_picklist`: the
well's own `source_well` when truthy, else the position of the first source
well matching the gene symbol, else none (the well is skipped). -/
def picklist_source_well (sp : SourcePlate) (well : LayoutWell) : Option String :=
  if truthy well.source_well then well.source_well
  else if truthy well.gene_symbol then
    match sp.find_well (well.gene_symbol.getD "") with
    | some sw => some sw.position
    | none => none
  else none

/-- `LayoutService.generate_picklist`: iterate layouts, skip empty wells and
wells without a source-well attribution, and emit one entry per remaining
well with the given transfer volume. -/
def generate_picklist (layouts : List PlateLayout) (sp : SourcePlate)
    (transfer_volume : ℚ := 375) : EchoPicklist :=
  { entries := layouts.flatMap fun layout =>
      let dest_plate_type := plate_type_name layout.plate_type.value
      layout.wells.filterMap fun well =>
        if well.content_type = ContentType.empty then none
        else
          match picklist_source_well sp well with
          | none => none
          | some src =>
            if src = "" then none
            else some {
              source_plate_barcode := sp.barcode,
              source_well := src,
              source_plate_type := sp.plate_type,
              destination_plate_barcode := layout.plate_barcode,
              destination_plate_type := dest_plate_type,
              destination_well := well.position,
              transfer_volume := transfer_volume,
              gene_symbol := if truthy well.gene_symbol
                then well.gene_symbol.getD ""
                else well.content_type.value } }

end LayoutService

/-- The CSV header field list of `EchoPicklist.to_csv`, in source order. -/
def csv_headers : List String :=
  ["Source Plate Barcode", "Source Well", "Source Plate Type",
   "Destination Plate Barcode", "Destination Plate Type", "Destination Well",
   "Transfer Volume", "GENE_SYMBOL", "COMPOUND_LABEL", "ENSEMBL_ID"]

/-- The comma-joined CSV line of one entry (`",".join([...])`), with falsy
auxiliary fields rendered as `N/A`. -/
def csv_line (e : PicklistEntry) : String :=
  String.intercalate ","
    [e.source_plate_barcode, e.source_well, e.source_plate_type,
     e.destination_plate_barcode, e.destination_plate_type,
     e.destination_well, pyFloatStr e.transfer_volume, e.gene_symbol,
     orNA e.compound_label, orNA e.ensembl_id]

/-- `EchoPicklist.to_csv`: header line, then one line appended per entry (the
source grows a `lines` list in a loop), joined by `"\n"`. -/
def EchoPicklist.to_csv (pk : EchoPicklist) : String :=
  let lines := pk.entries.foldl
    (fun acc e => acc ++ [csv_line e]) [String.intercalate "," csv_headers]
  String.intercalate "\n" lines

/-! ## Specification-side definitions

Definitions below this point follow the wording of the specification (for the
refinement-style claims) or package a claim's quantities; they are compared
against the source-derived definitions above. -/

namespace ConstraintSolver

/-- Total number of `sample`-typed wells carrying gene `g`, summed across a
list of layouts (the quantity of the spec's cardinality law). -/
def gene_sample_count (g : String) (layouts : List PlateLayout) : Nat :=
  (layouts.map fun L =>
    (L.wells.filter fun w =>
      w.content_type == ContentType.sample && w.gene_symbol == some g).length).sum

/-- Number of wells of a layout sitting at coordinate `rc`. -/
def coord_count (L : PlateLayout) (rc : Nat × Nat) : Nat :=
  L.wells.countP fun w => (w.row, w.col) = rc

/-- Number of control-typed wells across a list of layouts. -/
def control_well_count (layouts : List PlateLayout) : Nat :=
  (layouts.map fun L =>
    (L.wells.filter fun w =>
      w.content_type == ContentType.positive_control ||
      w.content_type == ContentType.negative_control ||
      w.content_type == ContentType.blank).length).sum

/-- The gene chunk actually passed to `_solve_single_plate_cpsat` for plate
`i` by `_solve_with_cpsat` (the whole list in the monolithic case). -/
def chunk_for (p : DesignParameters) (genes : List String) (i : Nat) : List String :=
  if num_plates p genes = 1 then genes else chunk genes (num_plates p genes) i

/-- The CP variable-domain guarantee for one cell: `row ∈ [edge, rows-edge-1]`,
`col ∈ [edge, cols-edge-1]`. -/
def in_domain (p : DesignParameters) (rc : Nat × Nat) : Prop :=
  edge p ≤ rc.1 ∧ rc.1 + edge p < rows p ∧ edge p ≤ rc.2 ∧ rc.2 + edge p < cols p

/-- Engine contract, part 1: every assignment the engine reports respects the
declared variable domains of the plate it was built for. -/
def oracle_in_domain (p : DesignParameters) (genes : List String) (O : Oracle) : Prop :=
  ∀ i a, ((O i).1 = some a ∨ (O i).2 = some a) →
    ∀ s, s < (instance_list p (chunk_for p genes i)).length → in_domain p (a s)

/-- Engine contract, part 2 (`AllDifferent` over the encoded positions): the
assignment is injective on the plate's sample instances. -/
def oracle_all_different (p : DesignParameters) (genes : List String) (O : Oracle) : Prop :=
  ∀ i a, ((O i).1 = some a ∨ (O i).2 = some a) →
    ∀ s t, s < (instance_list p (chunk_for p genes i)).length →
      t < (instance_list p (chunk_for p genes i)).length → a s = a t → s = t

/-- The golden ratio literal of the heuristic, as an exact rational. -/
def golden_ratio : ℚ := 1.618033988749895

/-- Spec-side row target: `r* = edge + ⌊(g_idx·φ + rep·φ²)·inner_rows⌋ mod inner_rows`. -/
def spec_row_target (p : DesignParameters) (g_idx rep : Nat) : Nat :=
  edge p + (Int.toNat ⌊((g_idx : ℚ) * golden_ratio + (rep : ℚ) * golden_ratio * golden_ratio) *
    (inner_rows p : ℚ)⌋) % inner_rows p

/-- Spec-side column target: `c* = edge + ⌊(g_idx·φ² + rep·φ)·inner_cols⌋ mod inner_cols`. -/
def spec_col_target (p : DesignParameters) (g_idx rep : Nat) : Nat :=
  edge p + (Int.toNat ⌊((g_idx : ℚ) * golden_ratio * golden_ratio + (rep : ℚ) * golden_ratio) *
    (inner_cols p : ℚ)⌋) % inner_cols p

/-- Chebyshev distance between two cells. -/
def cheb (a b : Int × Int) : Nat := max (a.1 - b.1).natAbs (a.2 - b.2).natAbs

/-- The square box `[-ρ, ρ]²` of offsets around `t`, in row-major order. -/
def spec_box (t : Int × Int) (ρ : Nat) : List (Int × Int) :=
  (int_range (-(ρ : Int)) (2 * ρ + 1)).flatMap fun dr =>
    (int_range (-(ρ : Int)) (2 * ρ + 1)).map fun dc =>
      (t.1 + dr, t.2 + dc)

/-- The cells at Chebyshev distance exactly `ρ` from `t`, in row-major order:
one square shell of the spec's spiral description. -/
def spec_ring (t : Int × Int) (ρ : Nat) : List (Int × Int) :=
  (spec_box t ρ).filter fun x => cheb x t == ρ

/-- Spec-side description of the heuristic placement of one instance: golden
ratio targets, square shells of increasing Chebyshev radius, first acceptable
well, else first free inner well in row-major order. -/
def spec_place (p : DesignParameters) (pl : Placement) (g_idx rep : Nat)
    (gene : String) : Option (Nat × Nat) :=
  let t : Int × Int := ((spec_row_target p g_idx rep : Int), (spec_col_target p g_idx rep : Int))
  match ((List.range (max (inner_rows p) (inner_cols p))).flatMap fun ρ =>
      spec_ring t ρ).find? (spiral_ok p pl gene) with
  | some rc => some (rc.1.toNat, rc.2.toNat)
  | none => (inner_cells p).find? fun rc => !occupied pl rc

end ConstraintSolver

/-- Spec-side picklist CSV line: the ten §3 fields joined by commas, with the
two optional auxiliary fields rendered as `N/A` when missing. -/
def c9_line (e : PicklistEntry) : String :=
  e.source_plate_barcode ++ "," ++ e.source_well ++ "," ++ e.source_plate_type ++ "," ++
  e.destination_plate_barcode ++ "," ++ e.destination_plate_type ++ "," ++
  e.destination_well ++ "," ++ pyFloatStr e.transfer_volume ++ "," ++
  e.gene_symbol ++ "," ++ orNA e.compound_label ++ "," ++ orNA e.ensembl_id

/-- Occurrence count with propositional equality (avoids `BEq` instance
mismatches between library lemma families). -/
def ccount {α : Type} [DecidableEq α] (a : α) (l : List α) : Nat :=
  l.countP fun x => x = a

/-! ## Concrete fixtures used by counterexamples and witnesses -/

namespace Fixtures

open ConstraintSolver

/-- Oracle for runs in which the engine finds nothing (`INFEASIBLE`/timeout on
both the full and the relaxed model, for every plate). -/
def O0 : Oracle := fun _ => (none, none)

/-- An oracle whose full-model answer is a fixed in-domain, injective
assignment on a 96-well plate with one edge layer (row 1 + s/10, col 1 + s%10). -/
def O1 : Oracle := fun _ => (some (fun s => (1 + s / 10, 1 + s % 10)), none)

/-- 96-well design with three reserved edge layers (inner region 2 × 6 = 12
wells) and a single gene `"G"` configured with 13 replicates: demand 13
exceeds one plate's capacity, so the gene's plate overflows. -/
def overfullD : DesignParameters :=
  { plate_type := .p96, replicates := 6, edge_empty_layers := 3,
    gene_configs := [("G", { gene_symbol := "G", replicates := 13 })] }

/-- Source plate holding gene `"G"` in well `A01`. -/
def overfullSP : SourcePlate :=
  { barcode := "SRC", wells := [{ position := "A01", gene_symbol := "G" }] }

/-- Default 96-well design (edge 1, 6 replicates). -/
def smallD : DesignParameters := {}

/-- Source plate holding genes `"A"` and `"B"`. -/
def smallSP : SourcePlate :=
  { barcode := "SRC2",
    wells := [{ position := "A01", gene_symbol := "A" },
              { position := "A02", gene_symbol := "B" }] }

/-- Design with one positive control of count 2 (and 1 replicate per gene). -/
def controlD : DesignParameters :=
  { plate_type := .p96, replicates := 1, edge_empty_layers := 1,
    controls := [{ ctype := .positive, name := "PC", count := 2 }] }

/-- 200 distinct gene names: at 6 replicates each on a 60-well inner region
this demands 20 plates, beyond the 10-plate cap. -/
def manyGenes : List String := (List.range 200).map fun i => "g" ++ toString i

/-- Design declaring a per-gene transfer-volume override of 5 nL for `"G"`. -/
def overrideD : DesignParameters :=
  { gene_configs := [("G", { gene_symbol := "G", replicates := 1, transfer_volume := 5 })] }

/-- A layout with a single sample well for gene `"G"` with source-well
attribution. -/
def oneWellLayout : PlateLayout :=
  { plate_barcode := "plate_1", plate_type := .p96,
    wells := [{ position := "B02", row := 1, col := 1,
                content_type := .sample, gene_symbol := some "G",
                replicate_index := some 0, source_plate := some "SRC",
                source_well := some "A01" }] }

/-- Source plate used by the picklist fixtures. -/
def overrideSP : SourcePlate :=
  { barcode := "SRC", wells := [{ position := "A01", gene_symbol := "G" }] }

/-- The picklist entry emitted for `oneWellLayout` at 375 nL. -/
def oneWellEntry : PicklistEntry :=
  { source_plate_barcode := "SRC", source_well := "A01",
    source_plate_type := "384PP_AQ_BP", destination_plate_barcode := "plate_1",
    destination_plate_type := "Corning_96_Uplate", destination_well := "B02",
    transfer_volume := 375, gene_symbol := "G" }

/-- The single layout produced by `solve` on the small fixture with the
in-domain engine assignment `O1`. -/
def smallLayout : PlateLayout :=
  ConstraintSolver._solve_single_plate_cpsat smallD ["A", "B"] smallSP 0 (O1 0)

/-- The corner well `A01` of that layout (an edge-ring well). -/
def cornerWell : LayoutWell :=
  { position := "A01", row := 0, col := 0, content_type := ContentType.empty }

end Fixtures

/-! ## Theorems -/

open ConstraintSolver Fixtures

/-- Claim C4, counterexample: a run in which the engine fails on both the full
and the relaxed model and the heuristic fallback produces the layout (two
genes, default 96-well design, oracle reporting infeasibility), yet
`relaxed_constraints` of the result is empty rather than listing
`"row_dispersion"`/`"col_dispersion"`. -/
theorem c4_counterexample :
    (solve smallD ["A", "B"] smallSP O0).layouts.length = 1 ∧
    (solve smallD ["A", "B"] smallSP O0).status = SolveStatus.success ∧
    (solve smallD ["A", "B"] smallSP O0).relaxed_constraints = [] := by
  refine ⟨rfl, rfl, rfl⟩

/-- Claim C4, amended: `SolveResult.relaxed_constraints` is the empty list on
every path of `solve` — the solver never records which constraints were
relaxed, whichever tier produced the layouts. -/
theorem c4_amended_never_records_relaxation (p : DesignParameters)
    (genes : List String) (sp : SourcePlate) (O : Oracle) :
    (solve p genes sp O).relaxed_constraints = [] := by
  simp only [solve, solve_after_capacity]
  split
  · rfl
  · split
    · rfl
    · split <;> rfl

/-- Claim C5, counterexample: a design declaring a per-sample transfer-volume
override of 5 nL for gene `"G"`, and a layout holding one `"G"` sample well;
`generate_picklist` emits the entry with its volume argument (375 nL), not the
design's override. -/
theorem c5_counterexample :
    ((LayoutService.generate_picklist [oneWellLayout]
        { barcode := "SRC", wells := [{ position := "A01", gene_symbol := "G" }] }
        375).entries.map fun e => e.transfer_volume) = [375] ∧
    Fixtures.overrideD.get_volume_for_gene "G" = 5 ∧ (375 : ℚ) ≠ 5 := by
  refine ⟨rfl, rfl, by norm_num⟩

/-- Claim C5, amended: every entry emitted by `generate_picklist` carries the
`transfer_volume` argument of the call (default 375 nL); the design's
per-sample overrides are not consulted. -/
theorem c5_amended_volume_is_argument (layouts : List PlateLayout)
    (sp : SourcePlate) (v : ℚ) :
    ∀ e ∈ (LayoutService.generate_picklist layouts sp v).entries,
      e.transfer_volume = v := by
  intro e he
  simp only [LayoutService.generate_picklist, List.mem_flatMap,
    List.mem_filterMap] at he
  obtain ⟨L, -, w, -, hw⟩ := he
  by_cases h1 : w.content_type = ContentType.empty
  · simp [h1] at hw
  · rw [if_neg h1] at hw
    rcases hsw : LayoutService.picklist_source_well sp w with - | src
    · simp only [hsw] at hw
      exact absurd hw (by simp)
    · simp only [hsw] at hw
      by_cases h2 : src = ""
      · simp [h2] at hw
      · rw [if_neg h2] at hw
        rw [← Option.some_inj.mp hw]

/-- Claim C5, amended, witness: the concrete entry emitted for the one-well
layout at 375 nL carries 375 nL. -/
theorem c5_amended_volume_is_argument_witness :
    oneWellEntry.transfer_volume = 375 :=
  c5_amended_volume_is_argument [oneWellLayout] overrideSP 375 oneWellEntry
    (by decide)

/-- Claim C3, evaluation of the code at the failing input: a design requesting
one positive control of count 2 alongside a one-replicate gene.  `solve`
returns `success`, but the layouts contain zero control-typed wells — the
solver never places controls even though it reserves capacity for them. -/
theorem c3_controls_never_placed :
    (solve controlD ["G1"]
        { barcode := "S", wells := [{ position := "A01", gene_symbol := "G1" }] }
        O0).status = SolveStatus.success ∧
    control_well_count (solve controlD ["G1"]
        { barcode := "S", wells := [{ position := "A01", gene_symbol := "G1" }] }
        O0).layouts = 0 ∧
    (controlD.controls.map (·.count)).sum = 2 := by
  refine ⟨rfl, rfl, rfl⟩

/-- Claim C1, counterexample: gene `"G"` demands 13 replicates but its plate
has only 12 inner wells (96-well plate, 3 edge layers); the heuristic
silently drops the 13th instance, yet the result reports `success` with only
12 `"G"` sample wells instead of `get_replicates_for_gene("G") = 13`. -/
theorem c1_counterexample :
    (solve overfullD ["G"] overfullSP O0).status = SolveStatus.success ∧
    gene_sample_count "G" (solve overfullD ["G"] overfullSP O0).layouts = 12 ∧
    overfullD.get_replicates_for_gene "G" = 13 := by
  refine ⟨rfl, rfl, rfl⟩

/-- Claim C2: with a nonzero available-well count (when `available_wells = 0`
the Python source raises `ZeroDivisionError` before reaching this check), if
`⌈N / K⌉ > 10` then `solve` returns `failed` with the explanatory message and
no layouts, independently of the engine (the result is the same for every
oracle); otherwise the capacity check passes and `solve` proceeds with the
post-capacity solving pipeline. -/
theorem c2_capacity_check (p : DesignParameters) (genes : List String)
    (sp : SourcePlate) (O O' : Oracle) (_hK : 0 < available_wells p) :
    (10 < num_plates p genes →
      solve p genes sp O = solve p genes sp O' ∧
      (solve p genes sp O).status = SolveStatus.failed ∧
      (solve p genes sp O).layouts = [] ∧
      (solve p genes sp O).message =
        some ("需要 " ++ toString (num_plates p genes) ++ " 个板，超过最大限制 (10)")) ∧
    (num_plates p genes ≤ 10 →
      solve p genes sp O = solve_after_capacity p genes sp O) := by
  refine ⟨fun h => ?_, fun h => ?_⟩
  · simp [solve, if_pos h]
  · simp only [solve, if_neg (by omega : ¬ 10 < num_plates p genes)]

/-- Claim C2, witness: 200 genes at 6 replicates on a 60-well inner region
demand 20 plates; `solve` fails with no layouts, and the result does not
depend on the oracle. -/
theorem c2_capacity_check_witness :
    (solve smallD manyGenes smallSP O0).status = SolveStatus.failed ∧
    (solve smallD manyGenes smallSP O0).layouts = [] ∧
    solve smallD manyGenes smallSP O0 = solve smallD manyGenes smallSP O1 := by
  have h := (c2_capacity_check smallD manyGenes smallSP O0 O1 (by decide)).1 (by decide)
  exact ⟨h.2.1, h.2.2.1, h.1⟩

/-- Appending one image element per list element in a fold is mapping. -/
theorem foldl_snoc_eq_map {α β : Type} (f : α → β) :
    ∀ (l : List α) (acc : List β),
      l.foldl (fun a x => a ++ [f x]) acc = acc ++ l.map f
  | [], acc => by simp
  | x :: l, acc => by
    simp only [List.foldl_cons, List.map_cons, foldl_snoc_eq_map f l]
    simp

/-- A comma-joined line of ten strings is the corresponding append chain. -/
theorem csv_line_eq_c9_line (e : PicklistEntry) : csv_line e = c9_line e := by
  simp [csv_line, c9_line, String.intercalate, String.intercalate.go]

/-- Claim C9: `EchoPicklist.to_csv` is exactly the literal header line
followed by one comma-separated line per entry in entry order, all joined by
single `\n` characters (hence no trailing newline), with missing
`compound_label` / `ensembl_id` rendered as `N/A` (see `orNA` inside
`c9_line`). -/
theorem c9_to_csv_format (es : List PicklistEntry) :
    EchoPicklist.to_csv ⟨es⟩ =
      String.intercalate "\n"
        ("Source Plate Barcode,Source Well,Source Plate Type,Destination Plate Barcode,Destination Plate Type,Destination Well,Transfer Volume,GENE_SYMBOL,COMPOUND_LABEL,ENSEMBL_ID"
          :: es.map c9_line) := by
  show String.intercalate "\n"
      (es.foldl (fun acc e => acc ++ [csv_line e]) [String.intercalate "," csv_headers]) = _
  rw [foldl_snoc_eq_map]
  have h1 : String.intercalate "," csv_headers =
      "Source Plate Barcode,Source Well,Source Plate Type,Destination Plate Barcode,Destination Plate Type,Destination Well,Transfer Volume,GENE_SYMBOL,COMPOUND_LABEL,ENSEMBL_ID" := rfl
  rw [h1, show csv_line = c9_line from funext csv_line_eq_c9_line,
    List.singleton_append]

/-- The neighbor fold of the adjacency check only ever appends
`"warning"`-severity violations. -/
theorem check_adjacent_fold_sev (posmap : List LayoutWell) (well : LayoutWell) :
    ∀ (ds : List (Int × Int)) (st : List (String × String) × List ConstraintViolation),
      (∀ v ∈ st.2, v.severity = "warning") →
      ∀ v ∈ (ds.foldl
        (fun st d =>
          match posmap.find? (fun w =>
              (w.row : Int) == (well.row : Int) + d.1 &&
              (w.col : Int) == (well.col : Int) + d.2) with
          | none => st
          | some neighbor =>
            if neighbor.content_type = ContentType.sample &&
                neighbor.gene_symbol == well.gene_symbol then
              let pair := if str_le well.position neighbor.position
                then (well.position, neighbor.position)
                else (neighbor.position, well.position)
              if st.1.contains pair then st
              else
                (st.1 ++ [pair], st.2 ++ [{
                  constraint_name := "no_adjacent_same_gene",
                  description := "同一基因 " ++ (well.gene_symbol.getD "") ++
                    " 相邻: " ++ pair.1 ++ ", " ++ pair.2,
                  severity := "warning",
                  affected_wells := [pair.1, pair.2] }])
            else st) st).2, v.severity = "warning"
  | [], st, hst => hst
  | d :: ds, st, hst => by
    refine check_adjacent_fold_sev posmap well ds _ ?_
    intro v hv
    rcases hfind : posmap.find? (fun w =>
        (w.row : Int) == (well.row : Int) + d.1 &&
        (w.col : Int) == (well.col : Int) + d.2) with - | neighbor
    · simp only [hfind] at hv
      exact hst v hv
    · simp only [hfind] at hv
      repeat' split at hv
      all_goals first
        | exact hst v hv
        | (rcases List.mem_append.mp hv with h | h
           · exact hst v h
           · simp only [List.mem_singleton] at h
             subst h
             rfl)

/-- Every violation of `_check_no_adjacent` has severity `"warning"`. -/
theorem check_no_adjacent_sev (layout : PlateLayout) :
    ∀ v ∈ _check_no_adjacent layout, v.severity = "warning" := by
  unfold _check_no_adjacent
  generalize layout.wells.reverse = posmap
  have main : ∀ (ws : List LayoutWell)
      (st : List (String × String) × List ConstraintViolation),
      (∀ v ∈ st.2, v.severity = "warning") →
      ∀ v ∈ (ws.foldl
        (fun st well =>
          if well.content_type = ContentType.sample && well.gene_symbol.getD "" != "" then
            check_adjacent_step posmap well st
          else st) st).2, v.severity = "warning" := by
    intro ws
    induction ws with
    | nil => exact fun st hst => hst
    | cons w ws ih =>
      intro st hst
      refine ih _ ?_
      by_cases hc : w.content_type = ContentType.sample && w.gene_symbol.getD "" != ""
      · simp only [List.foldl_cons, if_pos hc]
        exact check_adjacent_fold_sev posmap w neighbor_offsets st hst
      · simp only [List.foldl_cons, if_neg hc]
        exact hst
  exact main layout.wells ([], []) (by simp)

/-- Every violation of `_check_quadrant_balance` has severity `"warning"`. -/
theorem check_quadrant_sev (p : DesignParameters) (layout : PlateLayout) :
    ∀ v ∈ _check_quadrant_balance p layout, v.severity = "warning" := by
  intro v hv
  simp only [_check_quadrant_balance] at hv
  split at hv
  · simp only [List.mem_singleton] at hv
    subst hv
    rfl
  · simp at hv

/-- Every violation produced by the solver's built-in validation has severity
`"warning"`. -/
theorem validate_layouts_sev (p : DesignParameters) (layouts : List PlateLayout) :
    ∀ v ∈ _validate_layouts p layouts, v.severity = "warning" := by
  intro v hv
  unfold _validate_layouts at hv
  obtain ⟨L, -, hL⟩ := List.mem_flatMap.mp hv
  rcases List.mem_append.mp hL with h | h
  · exact check_no_adjacent_sev L v h
  · exact check_quadrant_sev p L v h

/-- Claim C10: the built-in validation (adjacent-same-gene check and
quadrant-balance check) only produces `"warning"`-severity violations, and
consequently `solve` never returns status `partial` (named `SolveStatus.part`
here), for any input and engine outcome. -/
theorem c10_warnings_only (p : DesignParameters) (genes : List String)
    (sp : SourcePlate) (O : Oracle) :
    (∀ layouts, ∀ v ∈ _validate_layouts p layouts, v.severity = "warning") ∧
    (solve p genes sp O).status ≠ SolveStatus.part := by
  refine ⟨fun layouts => validate_layouts_sev p layouts, ?_⟩
  unfold solve
  split
  · intro h
    cases h
  · simp only [solve_after_capacity]
    split
    · intro h
      cases h
    · have hany : ((_validate_layouts p
          (_solve_with_cpsat p genes sp (num_plates p genes) O)).any
            (·.severity == "error")) = false := by
        rw [List.any_eq_false]
        intro v hv
        have := validate_layouts_sev p _ v hv
        simp [this]
      simp only [hany, Bool.false_eq_true, if_false]
      intro h
      cases h

/-! ### List toolbox -/

/-- Filtering by a predicate and by its negation partitions the length. -/
theorem length_filter_partition {α : Type} (p : α → Bool) (l : List α) :
    (l.filter p).length + (l.filter fun a => !(p a)).length = l.length := by
  induction l with
  | nil => rfl
  | cons a l ih =>
    by_cases h : p a <;> simp [List.filter_cons, h, ← ih] <;> omega

/-- Cons rule for `ccount`. -/
theorem ccount_cons {α : Type} [DecidableEq α] (a b : α) (l : List α) :
    ccount a (b :: l) = ccount a l + if b = a then 1 else 0 := by
  simp [ccount, List.countP_cons]

/-- Append rule for `ccount`. -/
theorem ccount_append {α : Type} [DecidableEq α] (a : α) (l₁ l₂ : List α) :
    ccount a (l₁ ++ l₂) = ccount a l₁ + ccount a l₂ := by
  simp [ccount]

/-- `ccount` vanishes exactly on non-members. -/
theorem ccount_eq_zero {α : Type} [DecidableEq α] {a : α} {l : List α} :
    ccount a l = 0 ↔ a ∉ l := by
  induction l with
  | nil => simp [ccount]
  | cons b l ih =>
    rw [ccount_cons]
    by_cases h : b = a
    · subst h
      rw [if_pos rfl]
      simp only [List.mem_cons, not_or]
      constructor
      · intro h0
        omega
      · rintro ⟨h0, -⟩
        exact (h0 trivial).elim
    · rw [if_neg h, Nat.add_zero, ih]
      simp only [List.mem_cons]
      constructor
      · intro h0 hc
        rcases hc with rfl | hm
        · exact h rfl
        · exact h0 hm
      · intro h0 hm
        exact h0 (Or.inr hm)

/-- Count of an element in a nodup list is its membership indicator. -/
theorem ccount_of_nodup {α : Type} [DecidableEq α] {l : List α} (h : l.Nodup)
    (a : α) : ccount a l = if a ∈ l then 1 else 0 := by
  induction l with
  | nil => simp [ccount]
  | cons b l ih =>
    obtain ⟨hb, hl⟩ := List.nodup_cons.mp h
    rw [ccount_cons, ih hl]
    by_cases h1 : b = a
    · subst h1
      simp [hb]
    · have h2 : ¬ a = b := fun hh => h1 hh.symm
      simp [h1, h2, List.mem_cons]

/-- A list with element counts at most one has no duplicates. -/
theorem nodup_of_ccount_le_one {α : Type} [DecidableEq α] {l : List α}
    (h : ∀ a, ccount a l ≤ 1) : l.Nodup := by
  induction l with
  | nil => exact List.nodup_nil
  | cons b l ih =>
    rw [List.nodup_cons]
    constructor
    · intro hb
      have h1 := h b
      rw [ccount_cons, if_pos rfl] at h1
      have h2 : ccount b l = 0 := by omega
      exact ccount_eq_zero.mp h2 hb
    · refine ih fun a => ?_
      have := h a
      rw [ccount_cons] at this
      omega

/-- Counting a pair in a single mapped row of the grid. -/
theorem count_pair_map (r : Nat) (cs : List Nat) (rc : Nat × Nat) :
    ccount rc (cs.map fun c => (r, c)) = if r = rc.1 then ccount rc.2 cs else 0 := by
  induction cs with
  | nil => simp [ccount]
  | cons c cs ih =>
    rw [List.map_cons, ccount_cons, ih, ccount_cons]
    rcases rc with ⟨a, b⟩
    by_cases h1 : r = a <;> by_cases h2 : c = b <;>
      simp [h1, h2, Prod.ext_iff] <;> omega

/-- Counting a pair in a row-major product of two nodup lists. -/
theorem count_cell_prod (rs cs : List Nat) (hrs : rs.Nodup) (hcs : cs.Nodup)
    (rc : Nat × Nat) :
    ccount rc (rs.flatMap fun r => cs.map fun c => (r, c)) =
      if rc.1 ∈ rs ∧ rc.2 ∈ cs then 1 else 0 := by
  induction rs with
  | nil => simp [ccount]
  | cons r rs ih =>
    have hr : r ∉ rs := (List.nodup_cons.mp hrs).1
    rw [List.flatMap_cons, ccount_append, count_pair_map,
      ih (List.nodup_cons.mp hrs).2]
    by_cases h1 : r = rc.1
    · subst h1
      rw [if_pos rfl, ccount_of_nodup hcs]
      by_cases h2 : rc.2 ∈ cs <;> simp [h2, hr]
    · rw [if_neg h1]
      by_cases h2 : rc.1 ∈ rs ∧ rc.2 ∈ cs

      · rw [if_pos h2, if_pos ⟨List.mem_cons_of_mem _ h2.1, h2.2⟩]
      · rw [if_neg h2, if_neg ?_]
        rintro ⟨hmc, hc⟩
        rcases List.mem_cons.mp hmc with he | hm
        · exact h1 he.symm
        · exact h2 ⟨hm, hc⟩

/-- Count of a cell in the full grid. -/
theorem count_all_cells (p : DesignParameters) (rc : Nat × Nat) :
    ccount rc (all_cells p) = if rc.1 < rows p ∧ rc.2 < cols p then 1 else 0 := by
  rw [all_cells, count_cell_prod _ _ (List.nodup_range _) (List.nodup_range _)]
  simp [List.mem_range]

/-- The full grid has no duplicate cells. -/
theorem nodup_all_cells (p : DesignParameters) : (all_cells p).Nodup := by
  refine nodup_of_ccount_le_one fun rc => ?_
  rw [count_all_cells]
  split <;> omega

/-- The inner region has no duplicate cells. -/
theorem nodup_inner_cells (p : DesignParameters) : (inner_cells p).Nodup :=
  (nodup_all_cells p).filter _

/-- Membership in the full grid. -/
theorem mem_all_cells (p : DesignParameters) (rc : Nat × Nat) :
    rc ∈ all_cells p ↔ rc.1 < rows p ∧ rc.2 < cols p := by
  constructor
  · intro h
    by_contra hb
    have := count_all_cells p rc
    rw [if_neg hb] at this
    exact ccount_eq_zero.mp this h
  · intro h
    by_contra hb
    have := count_all_cells p rc
    rw [if_pos h, ccount_eq_zero.mpr hb] at this
    omega

/-- Membership in the inner region. -/
theorem mem_inner_cells (p : DesignParameters) (rc : Nat × Nat) :
    rc ∈ inner_cells p ↔
      (rc.1 < rows p ∧ rc.2 < cols p) ∧ on_edge p rc.1 rc.2 = false := by
  rw [inner_cells, List.mem_filter, mem_all_cells]
  simp

/-- Membership in the inner region is the CP variable-domain condition. -/
theorem mem_inner_cells_iff_in_domain (p : DesignParameters) (rc : Nat × Nat) :
    rc ∈ inner_cells p ↔ in_domain p rc := by
  rw [mem_inner_cells, in_domain, on_edge]
  simp only [Bool.or_eq_false_iff, decide_eq_false_iff_not, not_lt, not_le]
  omega

/-- The grid size. -/
theorem length_all_cells (p : DesignParameters) :
    (all_cells p).length = rows p * cols p := by
  rw [all_cells, List.flatMap_def, List.length_flatten, List.map_map]
  simp [Function.comp_def]

/-! ### Heuristic placement invariants -/

/-- `occupied` is membership among the placement keys. -/
theorem occupied_iff (pl : Placement) (rc : Nat × Nat) :
    occupied pl rc = true ↔ rc ∈ pl.map (·.1) := by
  simp only [occupied, List.any_eq_true, List.mem_map, beq_iff_eq]

/-- `occupied` is false exactly on fresh keys. -/
theorem occupied_eq_false_iff (pl : Placement) (rc : Nat × Nat) :
    occupied pl rc = false ↔ rc ∉ pl.map (·.1) := by
  rw [← occupied_iff]
  cases occupied pl rc <;> simp

/-- On nonnegative coordinates the integer occupancy test agrees with the
natural-number one. -/
theorem occupiedI_natCast (pl : Placement) (a b : Nat) :
    occupiedI pl ((a : Int), (b : Int)) = occupied pl (a, b) := by
  induction pl with
  | nil => rfl
  | cons e pl ih =>
    simp only [occupiedI, occupied, List.any_cons] at ih ⊢
    rw [ih]
    congr 1
    by_cases h : e.1 = (a, b)
    · simp [h]
    · have h1 : (e.1 == (a, b)) = false := by
        simp [h]
      have h2 : ((((e.1.1 : Int), (e.1.2 : Int)) : Int × Int) == ((a : Int), (b : Int))) = false := by
        simp only [beq_eq_false_iff_ne, ne_eq, Prod.ext_iff, Int.natCast_inj, not_and]
        intro h3 h4
        exact h (Prod.ext h3 h4)
      rw [h1, h2]

/-- A cell passing the spiral bounds test is an inner cell (after conversion
to natural coordinates). -/
theorem in_inner_spec {p : DesignParameters} {r c : Int}
    (h : in_inner p r c = true) :
    in_domain p (r.toNat, c.toNat) ∧ (r.toNat : Int) = r ∧ (c.toNat : Int) = c := by
  simp only [in_inner, Bool.and_eq_true, decide_eq_true_eq] at h
  obtain ⟨⟨⟨h1, h2⟩, h3⟩, h4⟩ := h
  refine ⟨⟨?_, ?_, ?_, ?_⟩, ?_, ?_⟩ <;> simp [in_domain] <;> omega

/-- A `some` answer of `heur_chosen` is an unoccupied inner cell. -/
theorem heur_chosen_spec {p : DesignParameters} {pl : Placement} {g rep : Nat}
    {gene : String} {rc : Nat × Nat}
    (h : heur_chosen p pl g rep gene = some rc) :
    rc ∈ inner_cells p ∧ occupied pl rc = false := by
  simp only [heur_chosen] at h
  split at h
  · rename_i rc0 hf
    have hok := List.find?_some hf
    simp only [spiral_ok, Bool.and_eq_true, Bool.not_eq_true'] at hok
    obtain ⟨⟨hin, hocc⟩, -⟩ := hok
    obtain ⟨hdom, hr, hc⟩ := in_inner_spec hin
    cases h
    constructor
    · exact (mem_inner_cells_iff_in_domain p _).mpr hdom
    · rw [← occupiedI_natCast]
      have : ((((rc0.1.toNat : Nat) : Int), ((rc0.2.toNat : Nat) : Int)) : Int × Int) = rc0 := by
        rw [hr, hc]

      rw [this]
      exact hocc
  · rename_i hf
    have hx := List.find?_some h
    have hmem := List.mem_of_find?_eq_some h
    simp only [Bool.not_eq_true'] at hx
    exact ⟨hmem, hx⟩

/-- When `heur_chosen` fails, every inner cell is occupied. -/
theorem heur_chosen_none {p : DesignParameters} {pl : Placement} {g rep : Nat}
    {gene : String} (h : heur_chosen p pl g rep gene = none) :
    ∀ rc ∈ inner_cells p, occupied pl rc = true := by
  simp only [heur_chosen] at h
  split at h
  · exact absurd h (by simp)
  · intro rc hrc
    have := List.find?_eq_none.mp h rc hrc
    simpa using this

/-- One placement step preserves the key invariant (keys are distinct inner
cells), appending at most one fresh inner key. -/
theorem heur_step_inv (p : DesignParameters) (pl : Placement) (g rep : Nat)
    (gene : String) (h1 : ∀ e ∈ pl, e.1 ∈ inner_cells p)
    (h2 : (pl.map (·.1)).Nodup) :
    (∀ e ∈ heur_place_instance p pl g rep gene, e.1 ∈ inner_cells p) ∧
    ((heur_place_instance p pl g rep gene).map (·.1)).Nodup := by
  unfold heur_place_instance
  rcases hc : heur_chosen p pl g rep gene with - | rc
  · exact ⟨h1, h2⟩
  · obtain ⟨hin, hocc⟩ := heur_chosen_spec hc
    have hnot : rc ∉ pl.map (·.1) := (occupied_eq_false_iff pl rc).mp hocc
    constructor
    · intro e he
      rcases List.mem_append.mp he with h | h
      · exact h1 e h
      · simp only [List.mem_singleton] at h
        subst h
        exact hin
    · rw [List.map_append]
      refine ((List.perm_append_singleton _ _).nodup_iff).mpr ?_
      exact List.nodup_cons.mpr ⟨hnot, h2⟩

/-- The fold of the heuristic main loop preserves the key invariant. -/
theorem heur_fold_inv (p : DesignParameters) :
    ∀ (insts : List (Nat × Nat × String)) (pl : Placement),
      (∀ e ∈ pl, e.1 ∈ inner_cells p) → (pl.map (·.1)).Nodup →
      (∀ e ∈ insts.foldl
          (fun pl i => heur_place_instance p pl i.1 i.2.1 i.2.2) pl,
        e.1 ∈ inner_cells p) ∧
      ((insts.foldl
          (fun pl i => heur_place_instance p pl i.1 i.2.1 i.2.2) pl).map (·.1)).Nodup
  | [], pl, h1, h2 => ⟨h1, h2⟩
  | i :: insts, pl, h1, h2 => by
    rw [List.foldl_cons]
    obtain ⟨h1', h2'⟩ := heur_step_inv p pl i.1 i.2.1 i.2.2 h1 h2
    exact heur_fold_inv p insts _ h1' h2'

/-- The placement dict of the heuristic has distinct inner-cell keys. -/
theorem heur_placement_inv (p : DesignParameters) (genes : List String) :
    (∀ e ∈ heur_placement p genes, e.1 ∈ inner_cells p) ∧
    ((heur_placement p genes).map (·.1)).Nodup :=
  heur_fold_inv p (instance_list p genes) [] (by simp) (by simp)

/-! ### Layout tiling -/

/-- `List.contains` on cell lists is membership. -/
theorem contains_cells_iff (ks : List (Nat × Nat)) (rc : Nat × Nat) :
    ks.contains rc = true ↔ rc ∈ ks := by
  simp [List.contains_iff_exists_mem_beq, beq_iff_eq]

/-- Coordinate count of the edge-ring wells. -/
theorem edge_wells_coord_count (p : DesignParameters) (rc : Nat × Nat) :
    (edge_wells p).countP (fun w => (w.row, w.col) = rc) =
      if on_edge p rc.1 rc.2 = true ∧ rc.1 < rows p ∧ rc.2 < cols p
      then 1 else 0 := by
  rw [edge_wells, List.countP_map]
  have : ((fun w : LayoutWell => decide ((w.row, w.col) = rc)) ∘
      (fun cell : Nat × Nat =>
        ({ position := _format_position cell.1 cell.2, row := cell.1, col := cell.2,
           content_type := ContentType.empty } : LayoutWell))) =
      fun cell : Nat × Nat => decide (cell = rc) := by
    funext cell
    simp [Function.comp]
  rw [this, List.countP_filter]
  by_cases hcase : on_edge p rc.1 rc.2 = true ∧ rc.1 < rows p ∧ rc.2 < cols p
  · rw [if_pos hcase]
    have heq : ((all_cells p).countP fun cell =>
        decide (cell = rc) && on_edge p cell.1 cell.2) = ccount rc (all_cells p) := by
      refine List.countP_congr fun x _ => ?_
      by_cases h : x = rc
      · subst h
        simp [hcase.1, ccount]
      · simp [h, ccount]
    rw [heq, count_all_cells, if_pos hcase.2]
  · rw [if_neg hcase, List.countP_eq_zero]
    intro cell hcell
    simp only [Bool.and_eq_true, decide_eq_true_eq, not_and]
    rintro rfl hedge
    exact hcase ⟨hedge, (mem_all_cells p cell).mp hcell⟩

/-- Coordinate count of the empty fill wells. -/
theorem fill_wells_coord_count (p : DesignParameters) (ks : List (Nat × Nat))
    (rc : Nat × Nat) :
    (fill_wells p ks).countP (fun w => (w.row, w.col) = rc) =
      if rc ∈ inner_cells p ∧ rc ∉ ks then 1 else 0 := by
  rw [fill_wells, List.countP_map]
  have hcomp : ((fun w : LayoutWell => decide ((w.row, w.col) = rc)) ∘
      (fun cell : Nat × Nat =>
        ({ position := _format_position cell.1 cell.2, row := cell.1, col := cell.2,
           content_type := ContentType.empty } : LayoutWell))) =
      fun cell : Nat × Nat => decide (cell = rc) := by
    funext cell
    simp [Function.comp]
  rw [hcomp, List.countP_filter]
  by_cases hcase : rc ∈ inner_cells p ∧ rc ∉ ks
  · rw [if_pos hcase]
    have heq : ((inner_cells p).countP fun cell =>
        decide (cell = rc) && !ks.contains cell) = ccount rc (inner_cells p) := by
      refine List.countP_congr fun x _ => ?_
      by_cases h : x = rc
      · subst h
        have : x ∉ ks := hcase.2
        simp only [ccount, decide_True, Bool.true_and, decide_eq_true_eq,
          Bool.not_eq_true', ← Bool.not_eq_true]
        constructor
        · intro
          trivial
        · intro
          intro hc
          exact this ((contains_cells_iff ks x).mp hc)
      · simp [h, ccount]
    rw [heq, ccount_of_nodup (nodup_inner_cells p), if_pos hcase.1]
  · rw [if_neg hcase, List.countP_eq_zero]
    intro cell hcell
    simp only [Bool.and_eq_true, decide_eq_true_eq, not_and]
    rintro rfl hnc
    refine hcase ⟨hcell, fun hk => ?_⟩
    rw [(contains_cells_iff ks cell).mpr hk] at hnc
    simp at hnc

/-- Coordinate count of the heuristic's sample wells is the key count. -/
theorem placement_wells_coord_count (p : DesignParameters) (sp : SourcePlate)
    (pl : Placement) (rc : Nat × Nat) :
    (pl.map fun e => sample_well p sp e.1 e.2.1 e.2.2).countP
        (fun w => (w.row, w.col) = rc) = ccount rc (pl.map (·.1)) := by
  rw [List.countP_map, ccount, List.countP_map]
  refine List.countP_congr fun e _ => ?_
  simp [sample_well, Function.comp]

/-- Tiling of a layout built from edge wells, one well per key of a
duplicate-free inner key list, and empty fill of the remaining inner cells:
it has exactly `rows · cols` wells and covers every grid coordinate exactly
once. -/
theorem layout_count_main (p : DesignParameters) (sws : List LayoutWell)
    (ks : List (Nat × Nat))
    (hcnt : ∀ rc : Nat × Nat,
      sws.countP (fun w => (w.row, w.col) = rc) = ccount rc ks)
    (hsub : ∀ k ∈ ks, k ∈ inner_cells p) (hnd : ks.Nodup)
    (hlen : sws.length = ks.length) :
    (edge_wells p ++ sws ++ fill_wells p ks).length = rows p * cols p ∧
    ∀ rc : Nat × Nat, rc.1 < rows p → rc.2 < cols p →
      (edge_wells p ++ sws ++ fill_wells p ks).countP
        (fun w => (w.row, w.col) = rc) = 1 := by
  constructor
  · have f1 : (edge_wells p).length =
        ((all_cells p).filter fun rc => on_edge p rc.1 rc.2).length := by
      rw [edge_wells, List.length_map]
    have f2 : (fill_wells p ks).length =
        ((inner_cells p).filter fun rc => !ks.contains rc).length := by
      rw [fill_wells, List.length_map]
    have f3 := length_filter_partition (fun rc => on_edge p rc.1 rc.2) (all_cells p)
    have f4 := length_filter_partition (fun rc => ks.contains rc) (inner_cells p)
    have f5 : ((inner_cells p).filter fun rc => ks.contains rc).length = ks.length := by
      refine List.Perm.length_eq ?_
      refine (List.perm_ext_iff_of_nodup ((nodup_inner_cells p).filter _) hnd).mpr ?_
      intro a
      rw [List.mem_filter]
      constructor
      · rintro ⟨-, hc⟩
        exact (contains_cells_iff ks a).mp hc
      · intro ha
        exact ⟨hsub a ha, (contains_cells_iff ks a).mpr ha⟩
    have f6 := length_all_cells p
    have hin : ((all_cells p).filter fun rc => !(on_edge p rc.1 rc.2)) =
        inner_cells p := rfl
    rw [hin] at f3
    simp only [List.length_append]
    omega
  · intro rc h1 h2
    simp only [List.countP_append]
    rw [edge_wells_coord_count, hcnt, fill_wells_coord_count]
    by_cases hedge : on_edge p rc.1 rc.2 = true
    · have hks : rc ∉ ks := fun hk => by
        have := (mem_inner_cells p rc).mp (hsub rc hk)
        rw [this.2] at hedge
        cases hedge
      have hfill : rc ∉ inner_cells p := fun hin => by
        have := (mem_inner_cells p rc).mp hin
        rw [this.2] at hedge
        cases hedge
      rw [if_pos ⟨hedge, h1, h2⟩, ccount_eq_zero.mpr hks,
        if_neg (fun h => hfill h.1)]
    · have hedge' : on_edge p rc.1 rc.2 = false := by
        cases h : on_edge p rc.1 rc.2
        · rfl
        · exact absurd h hedge
      have hin : rc ∈ inner_cells p := (mem_inner_cells p rc).mpr ⟨⟨h1, h2⟩, hedge'⟩
      rw [if_neg (fun h => hedge h.1), ccount_of_nodup hnd]
      by_cases hks : rc ∈ ks
      · rw [if_pos hks, if_neg (fun h => h.2 hks)]
      · rw [if_neg hks, if_pos ⟨hin, hks⟩]

/-- Coordinate count of the CP extraction's sample wells is the count among
the assigned cells. -/
theorem extract_wells_coord_count (p : DesignParameters) (sp : SourcePlate)
    (a : Assign) (samples : List (Nat × Nat × String)) (rc : Nat × Nat) :
    ((samples.enum.map fun se =>
        sample_well p sp (a se.1) se.2.2.2 se.2.2.1).countP
      (fun w => (w.row, w.col) = rc)) =
      ccount rc ((List.range samples.length).map a) := by
  rw [List.countP_map]
  have h1 : ((fun w : LayoutWell => decide ((w.row, w.col) = rc)) ∘
      (fun se : Nat × (Nat × Nat × String) =>
        sample_well p sp (a se.1) se.2.2.2 se.2.2.1)) =
      ((fun s : Nat => decide (a s = rc)) ∘ Prod.fst) := by
    funext se
    simp [sample_well, Function.comp]
  rw [h1, ← List.countP_map, List.enum_eq_enumFrom, List.enumFrom_map_fst,
    ← List.range_eq_range', ccount, List.countP_map]
  rfl

/-- The heuristic layout tiles the plate exactly. -/
theorem heur_layout_tiling (p : DesignParameters) (gs : List String)
    (sp : SourcePlate) (i : Nat) :
    (_solve_heuristic_improved p gs sp i).wells.length = rows p * cols p ∧
    ∀ rc : Nat × Nat, rc.1 < rows p → rc.2 < cols p →
      (_solve_heuristic_improved p gs sp i).wells.countP
        (fun w => (w.row, w.col) = rc) = 1 := by
  obtain ⟨hsub', hnd⟩ := heur_placement_inv p gs
  have hsub : ∀ k ∈ (heur_placement p gs).map (·.1), k ∈ inner_cells p := by
    intro k hk
    obtain ⟨e, he, rfl⟩ := List.mem_map.mp hk
    exact hsub' e he
  have h := layout_count_main p
    ((heur_placement p gs).map fun e => sample_well p sp e.1 e.2.1 e.2.2)
    ((heur_placement p gs).map (·.1))
    (placement_wells_coord_count p sp _) hsub hnd (by simp)
  simpa [_solve_heuristic_improved] using h

/-- The CP extraction tiles the plate exactly, given the engine's domain and
`AllDifferent` guarantees. -/
theorem extract_layout_tiling (p : DesignParameters) (sp : SourcePlate)
    (a : Assign) (samples : List (Nat × Nat × String)) (i : Nat)
    (hdom : ∀ s, s < samples.length → in_domain p (a s))
    (hinj : ∀ s t, s < samples.length → t < samples.length → a s = a t → s = t) :
    (_extract_solution_from_vars p a samples sp i).wells.length = rows p * cols p ∧
    ∀ rc : Nat × Nat, rc.1 < rows p → rc.2 < cols p →
      (_extract_solution_from_vars p a samples sp i).wells.countP
        (fun w => (w.row, w.col) = rc) = 1 := by
  have hsub : ∀ k ∈ (List.range samples.length).map a, k ∈ inner_cells p := by
    intro k hk
    obtain ⟨s, hs, rfl⟩ := List.mem_map.mp hk
    exact (mem_inner_cells_iff_in_domain p _).mpr (hdom s (List.mem_range.mp hs))
  have hnd : ((List.range samples.length).map a).Nodup := by
    refine List.Nodup.map_on ?_ (List.nodup_range _)
    intro s hs t ht hst
    exact hinj s t (List.mem_range.mp hs) (List.mem_range.mp ht) hst
  have h := layout_count_main p
    (samples.enum.map fun se => sample_well p sp (a se.1) se.2.2.2 se.2.2.1)
    ((List.range samples.length).map a)
    (extract_wells_coord_count p sp a samples) hsub hnd (by simp)
  simpa [_extract_solution_from_vars] using h

/-- Every layout of a solve result is the single-plate solution of the plate's
gene chunk at its plate index. -/
theorem solve_layouts_mem (p : DesignParameters) (genes : List String)
    (sp : SourcePlate) (O : Oracle) {L : PlateLayout}
    (hL : L ∈ (solve p genes sp O).layouts) :
    ∃ i, L = _solve_single_plate_cpsat p (chunk_for p genes i) sp i (O i) := by
  unfold solve at hL
  split at hL
  · exact absurd hL (by simp)
  · rename_i hcap
    simp only [solve_after_capacity] at hL
    split at hL
    · exact absurd hL (by simp)
    · split at hL <;>
      · simp only at hL
        rw [_solve_with_cpsat] at hL
        split at hL
        · rename_i hone
          simp only [List.mem_singleton] at hL
          refine ⟨0, ?_⟩
          rw [chunk_for, if_pos hone]
          exact hL
        · rename_i hone
          obtain ⟨i, -, hmem⟩ := List.mem_flatMap.mp hL
          dsimp only at hmem
          split at hmem
          · exact absurd hmem (by simp)
          · simp only [List.mem_singleton] at hmem
            refine ⟨i, ?_⟩
            rw [chunk_for, if_neg hone]
            exact hmem

/-- All wells of the heuristic layout on the edge ring are empty. -/
theorem heur_layout_edge (p : DesignParameters) (gs : List String)
    (sp : SourcePlate) (i : Nat) :
    ∀ w ∈ (_solve_heuristic_improved p gs sp i).wells,
      (w.row < edge p ∨ rows p - edge p ≤ w.row ∨
       w.col < edge p ∨ cols p - edge p ≤ w.col) →
      w.content_type = ContentType.empty := by
  intro w hw hb
  simp only [_solve_heuristic_improved] at hw
  rcases List.mem_append.mp hw with hw | hw
  · rcases List.mem_append.mp hw with hw | hw
    · rw [edge_wells] at hw
      obtain ⟨cell, -, rfl⟩ := List.mem_map.mp hw
      rfl
    · obtain ⟨e, he, rfl⟩ := List.mem_map.mp hw
      have hin := (heur_placement_inv p gs).1 e he
      have hd := (mem_inner_cells_iff_in_domain p _).mp hin
      exfalso
      obtain ⟨d1, d2, d3, d4⟩ := hd
      simp only [sample_well] at hb
      omega
  · rw [fill_wells] at hw
    obtain ⟨cell, -, rfl⟩ := List.mem_map.mp hw
    rfl

/-- All wells of the CP extraction on the edge ring are empty, given the
engine's domain guarantee. -/
theorem extract_layout_edge (p : DesignParameters) (sp : SourcePlate)
    (a : Assign) (samples : List (Nat × Nat × String)) (i : Nat)
    (hdom : ∀ s, s < samples.length → in_domain p (a s)) :
    ∀ w ∈ (_extract_solution_from_vars p a samples sp i).wells,
      (w.row < edge p ∨ rows p - edge p ≤ w.row ∨
       w.col < edge p ∨ cols p - edge p ≤ w.col) →
      w.content_type = ContentType.empty := by
  intro w hw hb
  simp only [_extract_solution_from_vars] at hw
  rcases List.mem_append.mp hw with hw | hw
  · rcases List.mem_append.mp hw with hw | hw
    · rw [edge_wells] at hw
      obtain ⟨cell, -, rfl⟩ := List.mem_map.mp hw
      rfl
    · obtain ⟨se, hse, rfl⟩ := List.mem_map.mp hw
      have hs : se.1 < samples.length := by
        have hm := List.mem_map_of_mem Prod.fst hse
        rw [List.enum_eq_enumFrom, List.enumFrom_map_fst,
          ← List.range_eq_range'] at hm
        exact List.mem_range.mp hm
      obtain ⟨d1, d2, d3, d4⟩ := hdom se.1 hs
      exfalso
      simp only [sample_well] at hb
      omega
  · rw [fill_wells] at hw
    obtain ⟨cell, -, rfl⟩ := List.mem_map.mp hw
    rfl

/-- The infeasibility oracle answers obviously satisfy the engine contract. -/
theorem O0_in_domain (p : DesignParameters) (genes : List String) :
    oracle_in_domain p genes O0 := by
  intro i a h
  rcases h with h | h <;> exact absurd h (by simp [O0])

/-- The fixed sample oracle respects the variable domains on the small
two-gene fixture. -/
theorem O1_in_domain : oracle_in_domain smallD ["A", "B"] O1 := by
  intro i a h s hs
  have ha : a = fun s => (1 + s / 10, 1 + s % 10) := by
    rcases h with h | h
    · exact (Option.some_inj.mp h).symm
    · exact absurd h (by simp [O1])
  subst ha
  have hlen : (instance_list smallD (chunk_for smallD ["A", "B"] i)).length = 12 := by
    rw [chunk_for, if_pos (by decide : num_plates smallD ["A", "B"] = 1)]
    rfl
  rw [hlen] at hs
  have he : edge smallD = 1 := rfl
  have hr : rows smallD = 8 := rfl
  have hc : cols smallD = 12 := rfl
  refine ⟨?_, ?_, ?_, ?_⟩ <;> simp only [he, hr, hc] <;> omega

/-- The fixed sample oracle is injective on the small fixture's instances. -/
theorem O1_all_different : oracle_all_different smallD ["A", "B"] O1 := by
  intro i a h s t hs ht hst
  have ha : a = fun s => (1 + s / 10, 1 + s % 10) := by
    rcases h with h | h
    · exact (Option.some_inj.mp h).symm
    · exact absurd h (by simp [O1])
  subst ha
  have hlen : (instance_list smallD (chunk_for smallD ["A", "B"] i)).length = 12 := by
    rw [chunk_for, if_pos (by decide : num_plates smallD ["A", "B"] = 1)]
    rfl
  rw [hlen] at hs ht
  simp only [Prod.ext_iff] at hst
  omega

/-- Claim C6: for every layout returned by `solve` — whether produced by the
CP extraction (under the engine's variable-domain guarantee, expressed as the
`oracle_in_domain` hypothesis) or by the heuristic fallback — every well on
the edge ring (`row < edge ∨ row ≥ rows − edge ∨ col < edge ∨ col ≥ cols −
edge`) has `content_type = empty`. -/
theorem c6_edge_exclusion (p : DesignParameters) (genes : List String)
    (sp : SourcePlate) (O : Oracle) (hdom : oracle_in_domain p genes O) :
    ∀ L ∈ (solve p genes sp O).layouts, ∀ w ∈ L.wells,
      (w.row < edge p ∨ rows p - edge p ≤ w.row ∨
       w.col < edge p ∨ cols p - edge p ≤ w.col) →
      w.content_type = ContentType.empty := by
  intro L hL
  obtain ⟨i, rfl⟩ := solve_layouts_mem p genes sp O hL
  intro w hw hb
  rw [_solve_single_plate_cpsat] at hw
  split at hw
  · exact heur_layout_edge p _ sp i w hw hb
  · split at hw
    · rename_i a ha
      exact extract_layout_edge p sp a _ i
        (fun s hs => hdom i a (Or.inl ha) s hs) w hw hb
    · split at hw
      · rename_i a ha
        exact extract_layout_edge p sp a _ i
          (fun s hs => hdom i a (Or.inr ha) s hs) w hw hb
      · exact heur_layout_edge p _ sp i w hw hb

/-- Claim C6, witness: the edge exclusion, applied to the corner well `A01`
of the concrete layout returned for the small fixture under the in-domain
engine assignment `O1`. -/
theorem c6_edge_exclusion_witness :
    cornerWell.content_type = ContentType.empty :=
  c6_edge_exclusion smallD ["A", "B"] smallSP O1 O1_in_domain smallLayout
    (by decide) cornerWell (by decide) (Or.inl (by decide))

/-- Claim C7: every layout returned by `solve` has exactly `rows · cols`
wells, and every plate coordinate appears in exactly one well — under the
engine contract (assignments in the declared domains and `AllDifferent` over
the encoded positions). -/
theorem c7_tiling (p : DesignParameters) (genes : List String)
    (sp : SourcePlate) (O : Oracle) (hdom : oracle_in_domain p genes O)
    (hinj : oracle_all_different p genes O) :
    ∀ L ∈ (solve p genes sp O).layouts,
      L.wells.length = rows p * cols p ∧
      ∀ rc : Nat × Nat, rc.1 < rows p → rc.2 < cols p → coord_count L rc = 1 := by
  intro L hL
  obtain ⟨i, rfl⟩ := solve_layouts_mem p genes sp O hL
  simp only [coord_count]
  rw [_solve_single_plate_cpsat]
  split
  · exact heur_layout_tiling p _ sp i
  · split
    · rename_i a ha
      exact extract_layout_tiling p sp a _ i
        (fun s hs => hdom i a (Or.inl ha) s hs)
        (fun s t hs ht => hinj i a (Or.inl ha) s t hs ht)
    · split
      · rename_i a ha
        exact extract_layout_tiling p sp a _ i
          (fun s hs => hdom i a (Or.inr ha) s hs)
          (fun s t hs ht => hinj i a (Or.inr ha) s t hs ht)
      · exact heur_layout_tiling p _ sp i

/-- Claim C7, witness: the tiling law at the concrete layout returned for the
small fixture under the in-domain injective engine assignment `O1`, evaluated
at coordinate `(1, 1)`. -/
theorem c7_tiling_witness :
    smallLayout.wells.length = rows smallD * cols smallD ∧
    coord_count smallLayout (1, 1) = 1 :=
  ⟨(c7_tiling smallD ["A", "B"] smallSP O1 O1_in_domain O1_all_different
      smallLayout (by decide)).1,
   (c7_tiling smallD ["A", "B"] smallSP O1 O1_in_domain O1_all_different
      smallLayout (by decide)).2 (1, 1) (by decide) (by decide)⟩

/-! ### Cardinality -/

/-- As long as the placement is not full, the heuristic finds a cell for every
instance (the forced row-major fallback at worst). -/
theorem heur_chosen_isSome (p : DesignParameters) (pl : Placement)
    (g rep : Nat) (gene : String) (h1 : ∀ e ∈ pl, e.1 ∈ inner_cells p)
    (h2 : (pl.map (·.1)).Nodup) (hlt : pl.length < (inner_cells p).length) :
    ∃ rc, heur_chosen p pl g rep gene = some rc := by
  rcases hc : heur_chosen p pl g rep gene with - | rc
  · exfalso
    have hall := heur_chosen_none hc
    have hsubset : inner_cells p ⊆ pl.map (·.1) := fun rc hrc =>
      (occupied_iff pl rc).mp (hall rc hrc)
    have hlen := (List.subperm_of_subset (nodup_inner_cells p) hsubset).length_le
    rw [List.length_map] at hlen
    omega
  · exact ⟨rc, rfl⟩

/-- When all instances fit in the inner region, the heuristic fold appends one
entry per instance carrying that instance's `(gene, replicate)` value. -/
theorem heur_fold_vals (p : DesignParameters) :
    ∀ (insts : List (Nat × Nat × String)) (pl : Placement),
      (∀ e ∈ pl, e.1 ∈ inner_cells p) → (pl.map (·.1)).Nodup →
      pl.length + insts.length ≤ (inner_cells p).length →
      (insts.foldl (fun pl i => heur_place_instance p pl i.1 i.2.1 i.2.2)
          pl).map (·.2) =
        pl.map (·.2) ++ insts.map (fun i => (i.2.2, i.2.1))
  | [], pl, _, _, _ => by simp
  | i :: insts, pl, h1, h2, hle => by
    rw [List.foldl_cons]
    obtain ⟨rc, hrc⟩ := heur_chosen_isSome p pl i.1 i.2.1 i.2.2 h1 h2
      (by have h' : (i :: insts).length = insts.length + 1 := rfl
          omega)
    have hstep : heur_place_instance p pl i.1 i.2.1 i.2.2 =
        pl ++ [(rc, (i.2.2, i.2.1))] := by
      rw [heur_place_instance, hrc]
    obtain ⟨h1', h2'⟩ := heur_step_inv p pl i.1 i.2.1 i.2.2 h1 h2
    rw [hstep] at h1' h2'
    rw [hstep, heur_fold_vals p insts (pl ++ [(rc, (i.2.2, i.2.1))]) h1' h2'
      (by have h' : (i :: insts).length = insts.length + 1 := rfl
          have h2' : (pl ++ [(rc, (i.2.2, i.2.1))]).length = pl.length + 1 := by
            simp
          omega)]
    simp

/-- Values of the heuristic placement, in order, when everything fits. -/
theorem heur_placement_vals (p : DesignParameters) (gs : List String)
    (hfit : (instance_list p gs).length ≤ (inner_cells p).length) :
    (heur_placement p gs).map (·.2) =
      (instance_list p gs).map (fun i => (i.2.2, i.2.1)) := by
  have h := heur_fold_vals p (instance_list p gs) [] (by simp) (by simp)
    (by simpa using hfit)
  simpa [heur_placement] using h

/-- Per-gene instance count of the instance list. -/
theorem instance_countP (p : DesignParameters) (g : String) :
    ∀ (gs : List String) (n : Nat),
      ((gs.enumFrom n).flatMap fun gi =>
        (List.range (p.get_replicates_for_gene gi.2)).map fun rep =>
          (gi.1, rep, gi.2)).countP (fun i => i.2.2 = g) =
      ccount g gs * p.get_replicates_for_gene g
  | [], n => by simp [ccount]
  | a :: gs, n => by
    rw [List.enumFrom_cons, List.flatMap_cons, List.countP_append,
      instance_countP p g gs (n + 1)]
    have hhead : ((List.range (p.get_replicates_for_gene a)).map fun rep =>
        (n, rep, a)).countP (fun i => i.2.2 = g) =
        if a = g then p.get_replicates_for_gene a else 0 := by
      rw [List.countP_map]
      by_cases h : a = g
      · subst h
        simp [Function.comp_def]
      · simp [Function.comp_def, h]
    rw [hhead, ccount_cons]
    by_cases h : a = g
    · subst h
      rw [if_pos rfl, if_pos rfl, Nat.add_mul, Nat.one_mul, Nat.add_comm]
    · rw [if_neg h, if_neg h, Nat.add_zero, Nat.zero_add]

/-- `ccount` distributes over `flatMap` as a sum. -/
theorem ccount_flatMap {α β : Type} [DecidableEq β] (g : β) (l : List α)
    (f : α → List β) :
    ccount g (l.flatMap f) = (l.map fun x => ccount g (f x)).sum := by
  induction l with
  | nil => simp [ccount]
  | cons a l ih => rw [List.flatMap_cons, ccount_append, ih, List.map_cons,
      List.sum_cons]

/-- Constant factors move out of a summed map. -/
theorem sum_map_mul_right {α : Type} (l : List α) (h : α → Nat) (c : Nat) :
    (l.map fun x => h x * c).sum = (l.map h).sum * c := by
  induction l with
  | nil => simp
  | cons a l ih => simp [ih, Nat.add_mul]

/-- Sums over flat maps of naturals. -/
theorem sum_flatMap_nat {α : Type} (l : List α) (f : α → List Nat) :
    (l.flatMap f).sum = (l.map fun x => (f x).sum).sum := by
  induction l with
  | nil => simp
  | cons a l ih => rw [List.flatMap_cons, List.sum_append, ih, List.map_cons,
      List.sum_cons]

/-- Contiguous chunks of size `m` cover the whole list when `P · m` reaches
its length. -/
theorem chunks_flatMap_eq {α : Type} (m : Nat) (hm : 1 ≤ m) :
    ∀ (P : Nat) (l : List α), l.length ≤ P * m →
      ((List.range P).flatMap fun i => (l.drop (i * m)).take m) = l
  | 0, l, h => by
    simp only [Nat.zero_mul, Nat.le_zero] at h
    rw [List.length_eq_zero] at h
    simp [h]
  | P + 1, l, h => by
    rw [List.range_succ_eq_map, List.flatMap_cons, List.flatMap_map]
    have hrest : (fun a : Nat => List.take m (List.drop (a.succ * m) l)) =
        fun i : Nat => List.take m (List.drop (i * m) (List.drop m l)) := by
      funext i
      rw [List.drop_drop]
      congr 2
      rw [Nat.succ_mul]
      omega
    rw [hrest, chunks_flatMap_eq m hm P (l.drop m)
      (by rw [List.length_drop]; rw [Nat.succ_mul] at h; omega)]
    simp

/-- The heuristic layout carries exactly one sample well per instance when
everything fits: per gene, `count(gene in gs) · replicates`. -/
theorem heur_layout_gene_count (p : DesignParameters) (gs : List String)
    (sp : SourcePlate) (i : Nat) (g : String)
    (hfit : (instance_list p gs).length ≤ (inner_cells p).length) :
    ((_solve_heuristic_improved p gs sp i).wells.filter fun w =>
      w.content_type == ContentType.sample && w.gene_symbol == some g).length =
      ccount g gs * p.get_replicates_for_gene g := by
  rw [← List.countP_eq_length_filter]
  simp only [_solve_heuristic_improved]
  rw [List.countP_append, List.countP_append]
  have hedge : (edge_wells p).countP (fun w =>
      w.content_type == ContentType.sample && w.gene_symbol == some g) = 0 := by
    rw [List.countP_eq_zero]
    intro w hw
    rw [edge_wells] at hw
    obtain ⟨c, -, rfl⟩ := List.mem_map.mp hw
    simp
  have hfill : (fill_wells p ((heur_placement p gs).map (·.1))).countP (fun w =>
      w.content_type == ContentType.sample && w.gene_symbol == some g) = 0 := by
    rw [List.countP_eq_zero]
    intro w hw
    rw [fill_wells] at hw
    obtain ⟨c, -, rfl⟩ := List.mem_map.mp hw
    simp
  have hmid : ((heur_placement p gs).map fun e =>
      sample_well p sp e.1 e.2.1 e.2.2).countP (fun w =>
      w.content_type == ContentType.sample && w.gene_symbol == some g) =
      (instance_list p gs).countP (fun inst => inst.2.2 = g) := by
    rw [List.countP_map]
    have hcomp : ((fun w : LayoutWell =>
        w.content_type == ContentType.sample && w.gene_symbol == some g) ∘
        (fun e : (Nat × Nat) × (String × Nat) =>
          sample_well p sp e.1 e.2.1 e.2.2)) =
        ((fun v : String × Nat => decide (v.1 = g)) ∘ (·.2)) := by
      funext e
      simp only [sample_well, Function.comp]
      rw [Bool.eq_iff_iff]
      simp
    rw [hcomp, ← List.countP_map, heur_placement_vals p gs hfit,
      List.countP_map]
    rfl
  rw [hedge, hmid, hfill, Nat.zero_add, Nat.add_zero]
  have h := instance_countP p g gs 0
  rw [instance_list, List.enum_eq_enumFrom]
  exact h

/-- The CP extraction carries exactly one sample well per instance. -/
theorem extract_layout_gene_count (p : DesignParameters) (sp : SourcePlate)
    (a : Assign) (samples : List (Nat × Nat × String)) (i : Nat) (g : String) :
    ((_extract_solution_from_vars p a samples sp i).wells.filter fun w =>
      w.content_type == ContentType.sample && w.gene_symbol == some g).length =
      samples.countP (fun inst => inst.2.2 = g) := by
  rw [← List.countP_eq_length_filter]
  simp only [_extract_solution_from_vars]
  rw [List.countP_append, List.countP_append]
  have hedge : (edge_wells p).countP (fun w =>
      w.content_type == ContentType.sample && w.gene_symbol == some g) = 0 := by
    rw [List.countP_eq_zero]
    intro w hw
    rw [edge_wells] at hw
    obtain ⟨c, -, rfl⟩ := List.mem_map.mp hw
    simp
  have hfill : (fill_wells p ((List.range samples.length).map a)).countP (fun w =>
      w.content_type == ContentType.sample && w.gene_symbol == some g) = 0 := by
    rw [List.countP_eq_zero]
    intro w hw
    rw [fill_wells] at hw
    obtain ⟨c, -, rfl⟩ := List.mem_map.mp hw
    simp
  have hmid : (samples.enum.map fun se =>
      sample_well p sp (a se.1) se.2.2.2 se.2.2.1).countP (fun w =>
      w.content_type == ContentType.sample && w.gene_symbol == some g) =
      samples.countP (fun inst => inst.2.2 = g) := by
    rw [List.countP_map]
    have hcomp : ((fun w : LayoutWell =>
        w.content_type == ContentType.sample && w.gene_symbol == some g) ∘
        (fun se : Nat × (Nat × Nat × String) =>
          sample_well p sp (a se.1) se.2.2.2 se.2.2.1)) =
        ((fun inst : Nat × Nat × String => decide (inst.2.2 = g)) ∘ Prod.snd) := by
      funext se
      simp only [sample_well, Function.comp]
      rw [Bool.eq_iff_iff]
      simp
    rw [hcomp, ← List.countP_map, List.enum_eq_enumFrom, List.enumFrom_map_snd]
  rw [hedge, hmid, hfill, Nat.zero_add, Nat.add_zero]

/-- Per-gene sample-well count of a single-plate solution, when the plate's
instances fit its inner region. -/
theorem single_plate_gene_count (p : DesignParameters) (gs : List String)
    (sp : SourcePlate) (i : Nat) (ans : OracleAnswer) (g : String)
    (hfit : (instance_list p gs).length ≤ (inner_cells p).length) :
    ((_solve_single_plate_cpsat p gs sp i ans).wells.filter fun w =>
      w.content_type == ContentType.sample && w.gene_symbol == some g).length =
      ccount g gs * p.get_replicates_for_gene g := by
  have hsamples : (instance_list p gs).countP (fun inst => inst.2.2 = g) =
      ccount g gs * p.get_replicates_for_gene g := by
    have h := instance_countP p g gs 0
    rw [instance_list, List.enum_eq_enumFrom]
    exact h
  rw [_solve_single_plate_cpsat]
  split
  · exact heur_layout_gene_count p gs sp i g hfit
  · split
    · rw [extract_layout_gene_count]
      exact hsamples
    · split
      · rw [extract_layout_gene_count]
        exact hsamples
      · exact heur_layout_gene_count p gs sp i g hfit

/-- Claim C1, amended: for a successful solve with distinct gene names, the
number of sample wells carrying gene `g` across all layouts equals
`get_replicates_for_gene g` — provided every plate's instance demand fits its
inner region (`hfit`); the counterexample shows the unrestricted claim fails
when a plate overflows and the heuristic drops instances. -/
theorem c1_amended_cardinality (p : DesignParameters) (genes : List String)
    (sp : SourcePlate) (O : Oracle) (g : String) (hnd : genes.Nodup)
    (hg : g ∈ genes)
    (hfit : ∀ i, i < num_plates p genes →
      (instance_list p (chunk_for p genes i)).length ≤ (inner_cells p).length)
    (hsucc : (solve p genes sp O).status = SolveStatus.success) :
    gene_sample_count g (solve p genes sp O).layouts =
      p.get_replicates_for_gene g := by
  rw [solve] at hsucc ⊢
  by_cases hcap : 10 < num_plates p genes
  · rw [if_pos hcap] at hsucc
    exact absurd hsucc (by simp)
  · rw [if_neg hcap] at hsucc ⊢
    simp only [solve_after_capacity] at hsucc ⊢
    by_cases hemp :
        (_solve_with_cpsat p genes sp (num_plates p genes) O).isEmpty = true
    · rw [if_pos hemp] at hsucc
      exact absurd hsucc (by simp)
    · rw [if_neg hemp] at hsucc ⊢
      by_cases herr : ((_validate_layouts p
          (_solve_with_cpsat p genes sp (num_plates p genes) O)).any
          (·.severity == "error")) = true
      · rw [if_pos herr] at hsucc
        exact absurd hsucc (by simp)
      · rw [if_neg herr]
        show gene_sample_count g
          (_solve_with_cpsat p genes sp (num_plates p genes) O) = _
        by_cases hone : num_plates p genes = 1
        · rw [_solve_with_cpsat, if_pos hone, gene_sample_count]
          simp only [List.map_cons, List.map_nil, List.sum_cons, List.sum_nil,
            Nat.add_zero]
          have hf := hfit 0 (by omega)
          rw [chunk_for, if_pos hone] at hf
          rw [single_plate_gene_count p genes sp 0 (O 0) g hf,
            ccount_of_nodup hnd, if_pos hg, Nat.one_mul]
        · have hP0 : num_plates p genes ≠ 0 := by
            intro h0
            apply hemp
            rw [_solve_with_cpsat, if_neg hone, h0]
            rfl
          have hlen1 : 1 ≤ genes.length :=
            List.length_pos.mpr (List.ne_nil_of_mem hg)
          have hm1 : 1 ≤ ceil_div genes.length (num_plates p genes) := by
            rw [ceil_div, Nat.le_div_iff_mul_le (by omega : 0 < num_plates p genes)]
            omega
          have hcov : genes.length ≤
              num_plates p genes * ceil_div genes.length (num_plates p genes) := by
            have hd := Nat.div_add_mod
              (genes.length + num_plates p genes - 1) (num_plates p genes)
            have hmod := Nat.mod_lt (genes.length + num_plates p genes - 1)
              (by omega : 0 < num_plates p genes)
            rw [ceil_div]
            set x := num_plates p genes *
              ((genes.length + num_plates p genes - 1) / num_plates p genes) with hx
            omega
          rw [_solve_with_cpsat, if_neg hone, gene_sample_count,
            List.map_flatMap, sum_flatMap_nat]
          have hterm : ∀ i ∈ List.range (num_plates p genes),
              (((fun i => (let plate_genes := chunk genes (num_plates p genes) i;
                if plate_genes.isEmpty = true then []
                else [_solve_single_plate_cpsat p plate_genes sp i (O i)])) i).map
                (fun L => (L.wells.filter fun w =>
                  w.content_type == ContentType.sample &&
                  w.gene_symbol == some g).length)).sum =
              ccount g (chunk genes (num_plates p genes) i) *
                p.get_replicates_for_gene g := by
            intro i hi
            show ((if (chunk genes (num_plates p genes) i).isEmpty = true then []
              else [_solve_single_plate_cpsat p
                (chunk genes (num_plates p genes) i) sp i (O i)]).map
                (fun L => (L.wells.filter fun w =>
                  w.content_type == ContentType.sample &&
                  w.gene_symbol == some g).length)).sum = _
            by_cases hch : (chunk genes (num_plates p genes) i).isEmpty = true
            · rw [if_pos hch]
              rw [List.isEmpty_iff] at hch
              rw [hch]
              simp [ccount]
            · rw [if_neg hch]
              simp only [List.map_cons, List.map_nil, List.sum_cons,
                List.sum_nil, Nat.add_zero]
              have hf := hfit i (List.mem_range.mp hi)
              rw [chunk_for, if_neg hone] at hf
              exact single_plate_gene_count p _ sp i (O i) g hf
          rw [List.map_congr_left hterm, sum_map_mul_right]
          have hsum : ((List.range (num_plates p genes)).map fun i =>
              ccount g (chunk genes (num_plates p genes) i)).sum =
              ccount g genes := by
            rw [← ccount_flatMap]
            have hjoin : ((List.range (num_plates p genes)).flatMap fun i =>
                chunk genes (num_plates p genes) i) = genes := by
              simp only [chunk]
              exact chunks_flatMap_eq _ hm1 _ genes hcov
            rw [hjoin]
          rw [hsum, ccount_of_nodup hnd, if_pos hg, Nat.one_mul]

/-- Claim C1, amended, witness: a fitting run (two genes at 6 replicates on a
60-well inner region) in which gene `"A"` receives exactly its 6 replicates. -/
theorem c1_amended_cardinality_witness :
    gene_sample_count "A" (solve smallD ["A", "B"] smallSP O0).layouts =
      smallD.get_replicates_for_gene "A" :=
  c1_amended_cardinality smallD ["A", "B"] smallSP O0 "A" (by decide)
    (by decide)
    (fun i hi => by
      have h1 : num_plates smallD ["A", "B"] = 1 := by decide
      rw [h1] at hi
      have h0 : i = 0 := by omega
      subst h0
      decide) rfl

/-! ### Golden-ratio spiral (heuristic placement policy) -/

/-- The golden-ratio literal is the scaled integer fraction used by the
integer-arithmetic embedding. -/
theorem golden_ratio_eq : golden_ratio = (PHI_NUM : ℚ) / (PHI_DEN : ℚ) := by
  norm_num [golden_ratio, PHI_NUM, PHI_DEN]

/-- The scaled-integer row offset is the floor formula of the specification. -/
theorem row_offset_eq_spec (g rep R : Nat) :
    row_offset g rep R =
      (Int.toNat ⌊((g : ℚ) * golden_ratio + (rep : ℚ) * golden_ratio * golden_ratio) *
        (R : ℚ)⌋) % R := by
  rw [golden_ratio_eq, row_offset]
  have hq : (((g : ℚ) * ((PHI_NUM : ℚ) / (PHI_DEN : ℚ)) +
      (rep : ℚ) * ((PHI_NUM : ℚ) / (PHI_DEN : ℚ)) * ((PHI_NUM : ℚ) / (PHI_DEN : ℚ))) *
      (R : ℚ)) =
      (((g * PHI_NUM * PHI_DEN + rep * PHI_NUM * PHI_NUM) * R : ℕ) : ℚ) /
        ((PHI_DEN * PHI_DEN : ℕ) : ℚ) := by
    have hD : ((PHI_DEN : ℚ)) ≠ 0 := by norm_num [PHI_DEN]
    push_cast
    field_simp
    ring
  rw [hq, Int.floor_toNat, Nat.floor_div_nat, Nat.floor_natCast]

/-- The scaled-integer column offset is the floor formula of the
specification. -/
theorem col_offset_eq_spec (g rep C : Nat) :
    col_offset g rep C =
      (Int.toNat ⌊((g : ℚ) * golden_ratio * golden_ratio + (rep : ℚ) * golden_ratio) *
        (C : ℚ)⌋) % C := by
  rw [golden_ratio_eq, col_offset]
  have hq : (((g : ℚ) * ((PHI_NUM : ℚ) / (PHI_DEN : ℚ)) * ((PHI_NUM : ℚ) / (PHI_DEN : ℚ)) +
      (rep : ℚ) * ((PHI_NUM : ℚ) / (PHI_DEN : ℚ))) * (C : ℚ)) =
      (((g * PHI_NUM * PHI_NUM + rep * PHI_NUM * PHI_DEN) * C : ℕ) : ℚ) /
        ((PHI_DEN * PHI_DEN : ℕ) : ℚ) := by
    have hD : ((PHI_DEN : ℚ)) ≠ 0 := by norm_num [PHI_DEN]
    push_cast
    field_simp
    ring
  rw [hq, Int.floor_toNat, Nat.floor_div_nat, Nat.floor_natCast]

/-- Mapping over a filtered list is a filterMap with a guarded function. -/
theorem map_filter_eq_filterMap {α β : Type} (f : α → β) (pred : α → Bool)
    (l : List α) :
    (l.filter pred).map f =
      l.filterMap fun a => if pred a then some (f a) else none := by
  induction l with
  | nil => rfl
  | cons a l ih =>
    rw [List.filter_cons, List.filterMap_cons]
    by_cases h : pred a
    · rw [if_pos h, if_pos h, List.map_cons, ih]
    · rw [if_neg h, if_neg h, ih]

/-- The source's square shell, translated to the target, is exactly the cells
at Chebyshev distance `ρ` of the spec's square box, in the same scan order. -/
theorem shell_cells_eq_ring (t : Int × Int) (ρ : Nat) :
    (shell_cells ρ).map (fun d => (t.1 + d.1, t.2 + d.2)) = spec_ring t ρ := by
  rw [shell_cells, spec_ring, spec_box, List.map_flatMap, List.filter_flatMap]
  refine List.flatMap_congr fun dr hdr => ?_
  rw [List.map_filterMap, List.filter_map, map_filter_eq_filterMap]
  refine List.filterMap_congr fun dc hdc => ?_
  have hb1 : dr.natAbs ≤ ρ := by
    rw [int_range] at hdr
    obtain ⟨k, hk, rfl⟩ := List.mem_map.mp hdr
    have := List.mem_range.mp hk
    omega
  have hb2 : dc.natAbs ≤ ρ := by
    rw [int_range] at hdc
    obtain ⟨k, hk, rfl⟩ := List.mem_map.mp hdc
    have := List.mem_range.mp hk
    omega
  have hcond : (dr.natAbs = ρ ∨ dc.natAbs = ρ) ↔
      (cheb (t.1 + dr, t.2 + dc) t = ρ) := by
    rw [cheb]
    have h1 : (t.1 + dr) - t.1 = dr := by ring
    have h2 : (t.2 + dc) - t.2 = dc := by ring
    rw [h1, h2]
    omega
  by_cases h : dr.natAbs = ρ ∨ dc.natAbs = ρ
  · rw [if_pos h]
    have hq : ((fun x => cheb x t == ρ) ∘ fun dc => (t.1 + dr, t.2 + dc)) dc = true := by
      simp only [Function.comp_apply, beq_iff_eq]
      exact hcond.mp h
    rw [if_pos hq]
    rfl
  · rw [if_neg h]
    have hq : ¬ ((fun x => cheb x t == ρ) ∘ fun dc => (t.1 + dr, t.2 + dc)) dc = true := by
      simp only [Function.comp_apply, beq_iff_eq]
      intro hc
      exact h (hcond.mpr hc)
    rw [if_neg hq]
    rfl

/-- The spiral candidate sequence is the concatenation of the Chebyshev rings
of radius `0, 1, …` around the target. -/
theorem spiral_candidates_eq_rings (p : DesignParameters) (tr tc : Nat) :
    spiral_candidates p tr tc =
      (List.range (max (inner_rows p) (inner_cols p))).flatMap fun ρ =>
        spec_ring ((tr : Int), (tc : Int)) ρ := by
  rw [spiral_candidates]
  refine List.flatMap_congr fun ρ _ => ?_
  exact shell_cells_eq_ring ((tr : Int), (tc : Int)) ρ

/-- Claim C8: the heuristic places each instance exactly as specified —
target `(r*, c*)` from the golden-ratio floor formula (with
`φ = 1.618033988749895`), then the first acceptable well (inner, unoccupied,
no same-label 8-neighbor) scanning square shells of increasing Chebyshev
radius around the target, and otherwise the first free inner well in
row-major order. -/
theorem c8_heuristic_follows_spec (p : DesignParameters) (pl : Placement)
    (g_idx rep : Nat) (gene : String) :
    heur_chosen p pl g_idx rep gene = spec_place p pl g_idx rep gene := by
  simp only [heur_chosen, spec_place]
  rw [show spec_row_target p g_idx rep =
      edge p + row_offset g_idx rep (inner_rows p) by
    rw [spec_row_target, row_offset_eq_spec]]
  rw [show spec_col_target p g_idx rep =
      edge p + col_offset g_idx rep (inner_cols p) by
    rw [spec_col_target, col_offset_eq_spec]]
  rw [spiral_candidates_eq_rings]

end Plaid
